import Mathlib

/-!
Verification of the FitAI backend against its natural-language specification.

Shallow embedding conventions used throughout this development:
* Python `int` is modelled as `Int`, Python `float` as `ℚ` (exact arithmetic;
  `round(x, 2)` is modelled by `round-half-to-even` at two decimals).
* Python dictionaries with a fixed key set become structures; generic JSON
  payloads become the inductive `Json` type, with association lists for objects.
* Fallible Python code (code that can raise) returns `Option`.
* Python strings are modelled as `String`, or as `List Char` where the code
  manipulates characters (regular-expression shaping of coach replies).
* `x or d` on numbers is `Option.getD` (both send `None`/`0` to `d`/`0`
  with equal results on integers); `s or d` on strings also sends `""` to `d`.
-/

set_option maxRecDepth 4000

namespace Checkins

/-- Python `value or 0` on an optional integer field of a macros dict:
`None` and `0` both yield `0`, any other integer yields itself, which is
exactly `Option.getD 0` on integers. -/
def pyOrZero (v : Option Int) : Int := v.getD 0

/-- A macros-style dict (`calories`/`protein`/`carbs`/`fats`); a field is
`none` when the key is missing or maps to `None`. -/
structure MacroDict where
  calories : Option Int
  protein : Option Int
  carbs : Option Int
  fats : Option Int

/-- A fully populated macros dict, as produced by `_apply_macro_delta`. -/
structure MacroVals where
  calories : Int
  protein : Int
  carbs : Int
  fats : Int
deriving DecidableEq

/-- `_apply_macro_delta` (src/backend/app/routers/checkins.py:50-56):
`updated[key] = max(0, (current.get(key) or 0) + (delta.get(key) or 0))`
for each of the four keys, then
`if updated["calories"] < 1200: updated["calories"] = 1200`. -/
def apply_macro_delta (current delta : MacroDict) : MacroVals :=
  let cal := max 0 (pyOrZero current.calories + pyOrZero delta.calories)
  { calories := if cal < 1200 then 1200 else cal
    protein := max 0 (pyOrZero current.protein + pyOrZero delta.protein)
    carbs := max 0 (pyOrZero current.carbs + pyOrZero delta.carbs)
    fats := max 0 (pyOrZero current.fats + pyOrZero delta.fats) }

end Checkins

/-- The Python whitespace class (ASCII part): space, tab, newline, carriage
return, vertical tab, form feed. -/
def isPySpace (c : Char) : Bool :=
  c = ' ' ∨ c = Char.ofNat 9 ∨ c = Char.ofNat 10 ∨ c = Char.ofNat 13 ∨
    c = Char.ofNat 11 ∨ c = Char.ofNat 12

/-- Python `str.strip()` on a character list: drop leading and trailing
whitespace. -/
def pyStripChars (cs : List Char) : List Char :=
  ((cs.dropWhile isPySpace).reverse.dropWhile isPySpace).reverse

/-- Python `round()` to an integer: round-half-to-even on exact rationals. -/
def roundHalfEven (x : ℚ) : ℤ :=
  if x - ⌊x⌋ < 1 / 2 then ⌊x⌋
  else if 1 / 2 < x - ⌊x⌋ then ⌊x⌋ + 1
  else if Even ⌊x⌋ then ⌊x⌋ else ⌊x⌋ + 1

/-- Python `round(x, 2)`: round-half-to-even at two decimal places. -/
def round2 (x : ℚ) : ℚ := (roundHalfEven (x * 100) : ℚ) / 100

namespace Onboarding

/-- Value of a nonempty list of decimal digit characters. -/
def digitsVal (cs : List Char) : Nat :=
  cs.foldl (fun acc c => acc * 10 + (c.toNat - '0'.toNat)) 0

/-- Python `int(s)` restricted to the forms the onboarding fields take:
optional surrounding whitespace, an optional sign, then decimal digits
(`None` on anything else, standing for the `ValueError` branch of
`_parse_int`). Underscored literals and other exotic `int()` inputs are out
of scope of the model. -/
def pyParseInt (s : String) : Option Int :=
  match pyStripChars s.toList with
  | [] => none
  | c :: rest =>
    if c = '-' then
      if rest ≠ [] ∧ rest.all Char.isDigit then some (-(digitsVal rest : Int)) else none
    else if c = '+' then
      if rest ≠ [] ∧ rest.all Char.isDigit then some (digitsVal rest : Int) else none
    else
      if (c :: rest).all Char.isDigit then some (digitsVal (c :: rest) : Int) else none

/-- Unsigned decimal form `digits [. digits]` with at least one digit. -/
def pyParseFracPart (cs : List Char) : Option ℚ :=
  let ip := cs.takeWhile Char.isDigit
  match cs.dropWhile Char.isDigit with
  | [] => if ip ≠ [] then some (digitsVal ip : ℚ) else none
  | c :: fr =>
    if c = '.' ∧ fr.all Char.isDigit ∧ (ip ≠ [] ∨ fr ≠ []) then
      some ((digitsVal ip : ℚ) + (digitsVal fr : ℚ) / (10 : ℚ) ^ fr.length)
    else none

/-- Python `float(s)` restricted to plain decimal literals with an optional
sign (`None` stands for the `ValueError` branch of `_parse_float`; exponent
and `inf`/`nan` forms are out of scope of the model). -/
def pyParseFloat (s : String) : Option ℚ :=
  match pyStripChars s.toList with
  | [] => none
  | c :: rest =>
    if c = '-' then (pyParseFracPart rest).map (fun q => -q)
    else if c = '+' then pyParseFracPart rest
    else pyParseFracPart (c :: rest)

/-- `_parse_int` (src/backend/app/routers/onboarding.py:52-58): `None` input
gives `None`, otherwise `int(value)` with `ValueError` mapped to `None`. -/
def _parse_int (value : Option String) : Option Int := value.bind pyParseInt

/-- `_parse_float` (src/backend/app/routers/onboarding.py:61-67): `None` input
gives `None`, otherwise `float(value)` with `ValueError` mapped to `None`. -/
def _parse_float (value : Option String) : Option ℚ := value.bind pyParseFloat

/-- `_height_cm` (src/backend/app/routers/onboarding.py:79-86): parse feet and
inches, return `None` when both fail, else treat a failed one as `0` and
return `round(feet * 30.48 + inches * 2.54, 2)`. -/
def _height_cm (feet inches : Option String) : Option ℚ :=
  let feet_value := _parse_int feet
  let inches_value := _parse_int inches
  if feet_value = none ∧ inches_value = none then none
  else
    some (round2 ((feet_value.getD 0 : ℚ) * (30.48 : ℚ) +
      (inches_value.getD 0 : ℚ) * (2.54 : ℚ)))

/-- `_weight_kg` (src/backend/app/routers/onboarding.py:89-93): parse pounds,
`None` on failure, else `round(pounds * 0.45359237, 2)`. -/
def _weight_kg (pounds : Option String) : Option ℚ :=
  match _parse_float pounds with
  | none => none
  | some pounds_value => some (round2 (pounds_value * (0.45359237 : ℚ)))

end Onboarding

/-- A JSON-ish Python value as the routers receive it: `None`, bool, number
(exact rational for both int and float), string, list, or dict (an
insertion-ordered association list). -/
inductive Json where
  | null
  | bool (b : Bool)
  | num (q : ℚ)
  | str (s : String)
  | arr (items : List Json)
  | obj (fields : List (String × Json))

/-- Python `d.get(key)` on a dict: `none` when the key is absent. -/
def jGet (fields : List (String × Json)) (key : String) : Option Json :=
  fields.lookup key

/-- Python truthiness of a JSON-ish value. -/
def pyTruthy (j : Json) : Bool :=
  match j with
  | .null => false
  | .bool b => b
  | .num q => q ≠ 0
  | .str s => s ≠ ""
  | .arr items => !items.isEmpty
  | .obj fields => !fields.isEmpty

/-- Test for the `None` value. -/
def jIsNull (j : Json) : Bool :=
  match j with
  | .null => true
  | _ => false

/-- A value that must be a Python `str` (`none` models the `AttributeError`
raised when a string method is called on anything else). -/
def asStr (j : Json) : Option String :=
  match j with
  | .str s => some s
  | _ => none

/-- Python `str()` of a JSON-ish value. String and integer renderings are
faithful; the renderings of non-integer and container values are
placeholders (the routers apply `str()` only to identifier fields, which the
third-party APIs deliver as strings or integers). -/
def pyStrJson (j : Json) : String :=
  match j with
  | .str s => s
  | .num q => if q.den = 1 then toString q.num else toString q.num ++ "/" ++ toString q.den
  | .bool b => if b then "True" else "False"
  | .null => "None"
  | .arr _ => "list"
  | .obj _ => "dict"

/-- Python `str.lower()` (ASCII case mapping). -/
def pyLower (s : String) : String :=
  String.mk (s.toList.map Char.toLower)

/-- Python `str.strip()`. -/
def pyStrip (s : String) : String :=
  String.mk (pyStripChars s.toList)

/-- Python `s.title()`: a cased character starting a run of cased characters
is uppercased, the rest of the run is lowercased. -/
def pyTitleGo (prevCased : Bool) : List Char → List Char
  | [] => []
  | c :: rest =>
    let cased := c.isAlpha
    let c' := if cased then (if prevCased then c.toLower else c.toUpper) else c
    c' :: pyTitleGo cased rest

/-- Python `s.title()`. -/
def pyTitle (s : String) : String := String.mk (pyTitleGo false s.toList)

/-- Python `needle in haystack` on strings: substring containment. -/
def strContains (haystack needle : String) : Bool :=
  decide (needle.toList <:+: haystack.toList)

/-- Python `float(value)` on a JSON-ish value: numbers are themselves, bools
are 0/1, strings go through the decimal parser, everything else raises
(`TypeError`), modelled as `none` (as is `ValueError` on a bad string). -/
def pyFloatJson (v : Json) : Option ℚ :=
  match v with
  | .num q => some q
  | .bool b => some (if b then 1 else 0)
  | .str s => Onboarding.pyParseFloat s
  | _ => none

/-- Python `s or d` for an optional string: `None` and `""` both give `d`. -/
def pyOrStr (o : Option String) (d : String) : String :=
  match o with
  | some s => if s = "" then d else s
  | none => d

namespace Checkins

/-- `PHOTO_RETENTION_STORE` (src/backend/app/routers/checkins.py:12). -/
def PHOTO_RETENTION_STORE : String := "store"

/-- `PHOTO_RETENTION_DELETE_AFTER_SCAN` (src/backend/app/routers/checkins.py:13). -/
def PHOTO_RETENTION_DELETE_AFTER_SCAN : String := "delete_after_scan"

/-- `_clean_photo_url` (src/backend/app/routers/checkins.py:59-63): non-strings
become `None`, strings are trimmed, empty results become `None`. -/
def _clean_photo_url (value : Json) : Option String :=
  match value with
  | .str s =>
    let trimmed := pyStrip s
    if trimmed = "" then none else some trimmed
  | _ => none

/-- `_extract_photo_urls` (src/backend/app/routers/checkins.py:66-79): keep the
cleaned url of each string item or of the `url` field of each dict item. -/
def _extract_photo_urls (value : Json) : List String :=
  match value with
  | .arr items =>
    items.filterMap (fun item =>
      match item with
      | .str _ => _clean_photo_url item
      | .obj fields => _clean_photo_url ((jGet fields "url").getD Json.null)
      | _ => none)
  | _ => []

/-- One stored photo item `{"url": ..., "type"?: ..., "date"?: ...}`; an
optional field is `none` when the key is absent. -/
structure PhotoItem where
  url : String
  ptype : Option String
  pdate : Option String
deriving DecidableEq

/-- The JSON dict a `PhotoItem` denotes. -/
def photoItemJson (p : PhotoItem) : Json :=
  Json.obj ([("url", Json.str p.url)] ++
    (match p.ptype with
      | some t => [("type", Json.str t)]
      | none => []) ++
    (match p.pdate with
      | some d => [("date", Json.str d)]
      | none => []))

/-- `_extract_photo_items` (src/backend/app/routers/checkins.py:82-110): build
`{"url", "type"?, "date"?}` items; a falsy type or date key is left out, a
blank or missing date falls back to the default date (itself left out when
falsy). -/
def _extract_photo_items (value : Json) (default_date : Option String) :
    List PhotoItem :=
  match value with
  | .arr items =>
    items.filterMap (fun item =>
      let parsed : Option String × Option String × Option String :=
        match item with
        | .str _ => (_clean_photo_url item, none, default_date)
        | .obj fields =>
          (_clean_photo_url ((jGet fields "url").getD Json.null),
           (match jGet fields "type" with
             | some (.str t) => some t
             | _ => none),
           (match jGet fields "date" with
             | some (.str d) => if pyStrip d ≠ "" then some (pyStrip d) else default_date
             | _ => default_date))
        | _ => (none, none, default_date)
      match parsed with
      | (none, _, _) => none
      | (some cleaned_url, photo_type, photo_date) =>
        some { url := cleaned_url
               ptype := match photo_type with
                 | some t => if t = "" then none else some t
                 | none => none
               pdate := match photo_date with
                 | some d => if d = "" then none else some d
                 | none => none })
  | _ => []

/-- The `seen`-set loop of `_dedupe_urls`. -/
def dedupeGo (seen : List String) : List String → List String
  | [] => []
  | url :: rest =>
    if url ∈ seen then dedupeGo seen rest
    else url :: dedupeGo (url :: seen) rest

/-- `_dedupe_urls` (src/backend/app/routers/checkins.py:160-168): keep the
first occurrence of each url. -/
def _dedupe_urls (urls : List String) : List String := dedupeGo [] urls

/-- The retention resolution of `submit_checkin`
(src/backend/app/routers/checkins.py:309-311):
`(photo_retention or "store").strip().lower()`, anything outside
`{"store", "delete_after_scan"}` resolved to `"store"`. -/
def resolveRetention (photo_retention : Option String) : String :=
  let retention_value := pyLower (pyStrip (pyOrStr photo_retention PHOTO_RETENTION_STORE))
  if retention_value = PHOTO_RETENTION_STORE ∨
      retention_value = PHOTO_RETENTION_DELETE_AFTER_SCAN then retention_value
  else PHOTO_RETENTION_STORE

/-- `keep_photos = retention_value != PHOTO_RETENTION_DELETE_AFTER_SCAN`
(src/backend/app/routers/checkins.py:313). -/
def keep_photos (photo_retention : Option String) : Bool :=
  resolveRetention photo_retention ≠ PHOTO_RETENTION_DELETE_AFTER_SCAN

/-- `photo_list = _extract_photo_items(photos, default_date=date_value)`
(src/backend/app/routers/checkins.py:314); a missing `photos` argument is
`None`. -/
def photo_list (photos : Option Json) (date_value : String) : List PhotoItem :=
  _extract_photo_items (photos.getD Json.null) (some date_value)

/-- `fallback_urls = _extract_photo_urls(photo_urls or [])`
(src/backend/app/routers/checkins.py:315). -/
def fallback_urls (photo_urls : Option Json) : List String :=
  _extract_photo_urls (photo_urls.getD (Json.arr []))

/-- `prompt_urls` (src/backend/app/routers/checkins.py:316-317): urls of the
extracted items, falling back to the cleaned `photo_urls`, deduplicated. -/
def prompt_urls (photos photo_urls : Option Json) (date_value : String) :
    List String :=
  let fromItems :=
    _extract_photo_urls (Json.arr ((photo_list photos date_value).map photoItemJson))
  let fromFallback :=
    _extract_photo_urls (Json.arr ((fallback_urls photo_urls).map Json.str))
  _dedupe_urls (if !fromItems.isEmpty then fromItems else fromFallback)

/-- `stored_photos = photo_list or [{"url": url, "date": date_value} for url
in fallback_urls]` (src/backend/app/routers/checkins.py:395). -/
def stored_photos (photos photo_urls : Option Json) (date_value : String) :
    List PhotoItem :=
  let pl := photo_list photos date_value
  if !pl.isEmpty then pl
  else (fallback_urls photo_urls).map
    (fun url => { url := url, ptype := none, pdate := some date_value })

/-- The `photos` field of the inserted `weekly_checkins` row
(src/backend/app/routers/checkins.py:402):
`stored_photos if keep_photos else []`. -/
def checkin_row_photos (photo_retention : Option String)
    (photos photo_urls : Option Json) (date_value : String) : List PhotoItem :=
  if keep_photos photo_retention then stored_photos photos photo_urls date_value
  else []

/-- Whether `_delete_checkin_photo_assets` is called
(src/backend/app/routers/checkins.py:392-393):
`if not keep_photos and prompt_urls`. -/
def deletion_attempted (photo_retention : Option String)
    (photos photo_urls : Option Json) (date_value : String) : Bool :=
  !keep_photos photo_retention &&
    !(prompt_urls photos photo_urls date_value).isEmpty

end Checkins

namespace Auth

/-- A row of the `users` table. -/
structure UserRow where
  id : String
  email : String
  hashed_password : String
  role : String
deriving DecidableEq

/-- The `users` table is modelled as a list of rows in storage order;
`.eq("email", e).limit(1)` returns the first row whose email matches. -/
def selectUserByEmail (db : List UserRow) (email : String) : Option UserRow :=
  (db.filter (fun r => r.email = email)).head?

/-- Outcome of an endpoint: either an HTTP error (status, detail) or a value. -/
def Outcome (A : Type) : Type := (Nat × String) ⊕ A

/-- `login` (src/backend/app/routers/auth.py:41-62), parameterized by the hex
SHA-256 digest function `sha256hex` (the `hashlib` library is external to the
repository, and both endpoints apply the same digest, so it is a parameter of
the model): look up the first `users` row with the given email, 401 with
detail Invalid credentials when none exists, 401 with the same detail when the
stored `hashed_password` differs from the digest of the supplied password,
otherwise `{status: ok, user_id}` (modelled as the user id). -/
def login (sha256hex : String → String) (db : List UserRow)
    (email password : String) : Outcome String :=
  match selectUserByEmail db email with
  | none => Sum.inl (401, "Invalid credentials")
  | some user =>
    let hashed_password := sha256hex password
    if user.hashed_password ≠ hashed_password then Sum.inl (401, "Invalid credentials")
    else Sum.inr user.id

/-- `register` (src/backend/app/routers/auth.py:17-33): insert a new `users`
row whose `hashed_password` is the unsalted digest of the password (the fresh
`uuid4` id is a parameter), and return the new table plus the new user id. -/
def register (sha256hex : String → String) (db : List UserRow)
    (user_id email password role : String) : List UserRow × String :=
  (db ++ [{ id := user_id, email := email,
            hashed_password := sha256hex password, role := role }], user_id)

end Auth

namespace Nutrition

/-- Python `j == "g"` for a JSON-ish value: string comparison, `False` on
non-strings. -/
def jEqStr (j : Json) (s : String) : Bool :=
  match j with
  | .str t => t = s
  | _ => false

/-- `_nutrient_value` (src/backend/app/routers/nutrition.py:86-101): walk the
nutrient list; for the first nutrient whose lowercased name contains one of
the match strings, return `float(value or amount)` with conversion failures
mapped to `0.0`; `0.0` when nothing matches. The result is `none` when the
code would raise outside its guarded `float` call: a non-dict nutrient, a
non-dict `nutrient` field, or a truthy non-string name hitting `.lower()`. -/
def _nutrient_value (nutrients : List Json) (name_matches : List String) :
    Option ℚ :=
  match nutrients with
  | [] => some 0
  | n :: rest =>
    match n with
    | .obj fields =>
      let a := (jGet fields "nutrientName").getD Json.null
      let nameOpt : Option String :=
        if pyTruthy a then asStr a
        else
          match (jGet fields "nutrient").getD (Json.obj []) with
          | .obj nf =>
            let b := (jGet nf "name").getD Json.null
            if pyTruthy b then asStr b else some ""
          | _ => none
      match nameOpt with
      | none => none
      | some nm =>
        if name_matches.any (fun m => strContains (pyLower nm) m) then
          let value0 := (jGet fields "value").getD Json.null
          let value :=
            if jIsNull value0 then (jGet fields "amount").getD Json.null
            else value0
          some ((pyFloatJson value).getD 0)
        else _nutrient_value rest name_matches
    | _ => none

/-- The data `_normalize_usda_food` (src/backend/app/routers/nutrition.py:
104-128) extracts before assembling its dict: name, `fdc_id`, optional
serving text, protein, carbs, fats, calories. `none` models a raised
exception (non-dict food, non-list `foodNutrients`, a non-string name
hitting `.title()`, or a `_nutrient_value` failure). -/
def usdaParts (food : Json) :
    Option (String × String × Option String × ℚ × ℚ × ℚ × ℚ) :=
  match food with
  | .obj fields =>
    match (jGet fields "foodNutrients").getD (Json.arr []) with
    | .arr nutrients =>
      let d := (jGet fields "description").getD Json.null
      let nameOpt : Option String :=
        if pyTruthy d then asStr d
        else
          match jGet fields "description" with
          | some v => asStr v
          | none => some "Food"
      match nameOpt with
      | none => none
      | some name => do
        let fdcv := (jGet fields "fdcId").getD Json.null
        let fdc_id := if pyTruthy fdcv then pyStrJson fdcv else ""
        let calories ← _nutrient_value nutrients ["energy"]
        let protein ← _nutrient_value nutrients ["protein"]
        let carbs ← _nutrient_value nutrients ["carbohydrate"]
        let fats ← _nutrient_value nutrients ["total lipid", "fat"]
        let serving_size := (jGet fields "servingSize").getD Json.null
        let serving_unit := (jGet fields "servingSizeUnit").getD Json.null
        let serving : Option String :=
          if pyTruthy serving_size ∧ pyTruthy serving_unit then
            some (pyStrJson serving_size ++ " " ++ pyStrJson serving_unit)
          else none
        pure (name, fdc_id, serving, protein, carbs, fats, calories)
    | _ => none
  | _ => none

/-- `_normalize_usda_food` (src/backend/app/routers/nutrition.py:104-128):
the returned dict, with its keys in the source's literal order. -/
def _normalize_usda_food (food : Json) : Option (List (String × Json)) :=
  (usdaParts food).map (fun parts =>
    match parts with
    | (name, fdc_id, serving, protein, carbs, fats, calories) =>
      [("source", Json.str "usda"),
       ("name", Json.str (pyTitle name)),
       ("serving", Json.str (pyOrStr serving "100 g")),
       ("protein", Json.num protein),
       ("carbs", Json.num carbs),
       ("fats", Json.num fats),
       ("calories", Json.num calories),
       ("metadata", Json.obj [("fdc_id", Json.str fdc_id),
                              ("source", Json.str "usda")]),
       ("fdc_id", Json.str fdc_id)])

/-- `_safe_float` (src/backend/app/routers/nutrition.py:131-135). -/
def _safe_float (v : Json) : ℚ := (pyFloatJson v).getD 0

/-- `_fatsecret_serving_value` (src/backend/app/routers/nutrition.py:138-139). -/
def _fatsecret_serving_value (fields : List (String × Json)) (key : String) : ℚ :=
  _safe_float ((jGet fields key).getD Json.null)

/-- One parsed serving option of `_parse_serving_option`
(src/backend/app/routers/nutrition.py:152-185); fields mirror the dict keys
`id`, `description`, `metric_grams`, `number_of_units`, `calories`,
`protein`, `carbs`, `fats` (`description` stays JSON-ish because the source
stores the raw `serving_description` value when it is truthy). -/
structure ServingOpt where
  id : Option String
  description : Json
  metric_grams : Option ℚ
  number_of_units : ℚ
  calories : ℚ
  protein : ℚ
  carbs : ℚ
  fats : ℚ

/-- `_parse_serving_option` (src/backend/app/routers/nutrition.py:152-185):
outer `none` models a raised exception (non-dict truthy serving, or a truthy
unconvertible `number_of_units`), inner `none` is the Python `None` returned
for a falsy serving. -/
def _parse_serving_option (serving : Json) : Option (Option ServingOpt) :=
  if !pyTruthy serving then some none
  else match serving with
    | .obj fields =>
      let serving_id := (jGet fields "serving_id").getD Json.null
      let serving_desc :=
        let v := (jGet fields "serving_description").getD Json.null
        if pyTruthy v then v else Json.str ""
      let metric_amount := (jGet fields "metric_serving_amount").getD Json.null
      let metric_unit := (jGet fields "metric_serving_unit").getD Json.null
      let number_of_units := (jGet fields "number_of_units").getD Json.null
      let display_text :=
        if ¬pyTruthy serving_desc ∧ pyTruthy metric_amount ∧ pyTruthy metric_unit
        then Json.str (pyStrJson metric_amount ++ " " ++ pyStrJson metric_unit)
        else serving_desc
      let metric_grams : Option ℚ :=
        if pyTruthy metric_amount ∧ pyTruthy metric_unit then
          if jEqStr metric_unit "g" then pyFloatJson metric_amount else none
        else none
      match (if pyTruthy number_of_units then pyFloatJson number_of_units
        else some 1) with
      | none => none
      | some nu =>
        some (some
          { id := if pyTruthy serving_id then some (pyStrJson serving_id) else none
            description :=
              if pyTruthy display_text then display_text else Json.str "1 serving"
            metric_grams := metric_grams
            number_of_units := nu
            calories := _fatsecret_serving_value fields "calories"
            protein := _fatsecret_serving_value fields "protein"
            carbs := _fatsecret_serving_value fields "carbohydrate"
            fats := _fatsecret_serving_value fields "fat" })
    | _ => none

/-- The JSON dict a `ServingOpt` denotes, keys in the source's order. -/
def servingOptJson (o : ServingOpt) : Json :=
  Json.obj
    [("id", match o.id with
       | some s => Json.str s
       | none => Json.null),
     ("description", o.description),
     ("metric_grams", match o.metric_grams with
       | some q => Json.num q
       | none => Json.null),
     ("number_of_units", Json.num o.number_of_units),
     ("calories", Json.num o.calories),
     ("protein", Json.num o.protein),
     ("carbs", Json.num o.carbs),
     ("fats", Json.num o.fats)]

/-- The `all_servings` accumulation loop of `_normalize_fatsecret_detail`
over a list payload: parsed options are kept, `None` results are skipped,
a raised exception aborts. -/
def parseServings : List Json → Option (List ServingOpt)
  | [] => some []
  | s :: rest =>
    match _parse_serving_option s with
    | none => none
    | some none => parseServings rest
    | some (some o) => (parseServings rest).map (fun l => o :: l)

/-- The data `_normalize_fatsecret_detail`
(src/backend/app/routers/nutrition.py:188-222) extracts before assembling
its dict: name, `food_id`, the default serving text, all serving options,
and the raw brand value. -/
def fatsecretParts (food : Json) :
    Option (String × String × Json × List ServingOpt × Json) :=
  match food with
  | .obj fields =>
    let sv := (jGet fields "servings").getD Json.null
    match (if pyTruthy sv then sv else Json.obj []) with
    | .obj sf =>
      let servings_data := (jGet sf "serving").getD Json.null
      let allOpt : Option (List ServingOpt) :=
        match servings_data with
        | .arr items => parseServings items
        | .obj _ =>
          match _parse_serving_option servings_data with
          | none => none
          | some none => some []
          | some (some o) => some [o]
        | _ => some []
      match allOpt with
      | none => none
      | some all_servings =>
        let serving_text : Json :=
          match all_servings.head? with
          | some o => o.description
          | none => Json.str "1 serving"
        let nm := (jGet fields "food_name").getD Json.null
        let nameOpt : Option String :=
          if pyTruthy nm then asStr nm else some "Food"
        match nameOpt with
        | none => none
        | some name =>
          let fidv := (jGet fields "food_id").getD Json.null
          let food_id := if pyTruthy fidv then pyStrJson fidv else ""
          let brand := (jGet fields "brand_name").getD Json.null
          some (name, food_id, serving_text, all_servings, brand)
    | _ => none
  | _ => none

/-- `_normalize_fatsecret_detail` (src/backend/app/routers/nutrition.py:
188-222): the returned dict, with its keys in the source's literal order;
the default macro values come from the first serving option (`0` when there
is none). -/
def _normalize_fatsecret_detail (food : Json) : Option (List (String × Json)) :=
  (fatsecretParts food).map (fun parts =>
    match parts with
    | (name, food_id, serving_text, all_servings, brand) =>
      [("id", Json.str food_id),
       ("source", Json.str "fatsecret"),
       ("name", Json.str (pyTitle name)),
       ("serving", serving_text),
       ("protein", Json.num (match all_servings.head? with
         | some o => o.protein
         | none => 0)),
       ("carbs", Json.num (match all_servings.head? with
         | some o => o.carbs
         | none => 0)),
       ("fats", Json.num (match all_servings.head? with
         | some o => o.fats
         | none => 0)),
       ("calories", Json.num (match all_servings.head? with
         | some o => o.calories
         | none => 0)),
       ("serving_options", Json.arr (all_servings.map servingOptJson)),
       ("metadata", Json.obj [("food_id", Json.str food_id), ("brand", brand)]),
       ("food_id", Json.str food_id)])

end Nutrition

namespace Workouts

/-- `_estimate_one_rep_max` (src/backend/app/routers/workouts.py:104-107):
`0` when weight or reps is nonpositive, else
`round(weight * (1 + reps / 30), 2)`. -/
def _estimate_one_rep_max (weight : ℚ) (reps : ℤ) : ℚ :=
  if weight ≤ 0 ∨ reps ≤ 0 then 0
  else round2 (weight * (1 + (reps : ℚ) / 30))

/-- One `exercise_logs` row as selected by `complete_session`
(`exercise_name,reps,weight`); a field is `none` when the column is NULL.
`int(... or 0)` and `float(... or 0)` coercions are `Option.getD 0`, and a
NULL or empty name becomes Unknown via `log.get("exercise_name") or
"Unknown"`. -/
structure LogRow where
  exercise_name : Option String
  reps : Option Int
  weight : Option ℚ

/-- `log.get("exercise_name") or "Unknown"`. -/
def logName (row : LogRow) : String :=
  match row.exercise_name with
  | some s => if s = "" then "Unknown" else s
  | none => "Unknown"

/-- One assignment `best_by_exercise[name] = max(best_by_exercise.get(name,
0), estimate)` on a Python dict modelled as an insertion-ordered association
list: an existing key is updated in place, a new key is appended. -/
def updateBest (acc : List (String × ℚ)) (name : String) (est : ℚ) :
    List (String × ℚ) :=
  if (acc.lookup name).isSome then
    acc.map (fun p => if p.1 = name then (p.1, max p.2 est) else p)
  else acc ++ [(name, max 0 est)]

/-- The `best_by_exercise` loop of `complete_session`
(src/backend/app/routers/workouts.py:592-600): skip estimates that are not
positive, keep the per-exercise maximum. -/
def best_by_exercise (logs : List LogRow) : List (String × ℚ) :=
  logs.foldl (fun acc log =>
    let reps := log.reps.getD 0
    let weight := log.weight.getD 0
    let estimate := _estimate_one_rep_max weight reps
    if estimate ≤ 0 then acc
    else updateBest acc (logName log) estimate) []

/-- One element of the returned `prs` list (equivalently one inserted `prs`
row, whose `previous_value` records the replaced best). -/
structure PrUpdate where
  exercise_name : String
  value : ℚ
  previous_value : Option ℚ
deriving DecidableEq

/-- The PR loop of `complete_session` (src/backend/app/routers/workouts.py:
602-636). `stored` models the `prs` table query for the session's user:
`stored n` is the highest stored `estimated_1rm` value for exercise `n`
(`.order("value", desc=True).limit(1)`), `none` when no row exists. An
exercise whose best estimate does not strictly exceed the stored value is
skipped (`continue`); otherwise a row is inserted and an update entry is
returned. -/
def pr_loop (stored : String → Option ℚ) (best : List (String × ℚ)) :
    List PrUpdate :=
  best.filterMap (fun p =>
    match stored p.1 with
    | some previous_value =>
      if p.2 ≤ previous_value then none
      else some { exercise_name := p.1, value := p.2,
                  previous_value := some previous_value }
    | none => some { exercise_name := p.1, value := p.2,
                     previous_value := none })

/-- The `prs` list returned by `complete_session` (and, element for element,
the set of inserted `prs` rows). -/
def complete_session_prs (stored : String → Option ℚ) (logs : List LogRow) :
    List PrUpdate :=
  pr_loop stored (best_by_exercise logs)

/-- Concrete witness table: a stored 100 kg estimated-1RM PR for Bench. -/
def witnessStored : String → Option ℚ :=
  fun n => if n = "Bench" then some 100 else none

/-- Concrete witness logs: Bench 30 kg x 30 reps (estimate 60), Squat 50 kg x
30 reps (estimate 100). -/
def witnessLogs : List LogRow :=
  [{ exercise_name := some "Bench", reps := some 30, weight := some 30 },
   { exercise_name := some "Squat", reps := some 30, weight := some 50 }]

end Workouts

section UuidModel

/-- The `uuid` standard-library module is external to the repository, so the
UUID type and its three operations used by the routers are parameters of the
model: `uuidParse` is `uuid.UUID(s)` (`none` for `ValueError`), `uuid5URL` is
`uuid.uuid5(uuid.NAMESPACE_URL, name)`, and `uuidToString` is `str(u)`. -/
def workouts_normalize_user_id {U : Type} (uuidParse : String → Option U)
    (uuid5URL : String → U) (uuidToString : U → String)
    (user_id : Option String) : Option String :=
  match user_id with
  | none => none
  | some s =>
    if s = "" then none
    else some (match uuidParse s with
      | some u => uuidToString u
      | none => uuidToString (uuid5URL ("fitai:" ++ s)))

/-- The copy of `_normalize_user_id` in the nutrition router
(src/backend/app/routers/nutrition.py:21-27); its body is textually the same
as the workouts copy. -/
def nutrition_normalize_user_id {U : Type} (uuidParse : String → Option U)
    (uuid5URL : String → U) (uuidToString : U → String)
    (user_id : Option String) : Option String :=
  match user_id with
  | none => none
  | some s =>
    if s = "" then none
    else some (match uuidParse s with
      | some u => uuidToString u
      | none => uuidToString (uuid5URL ("fitai:" ++ s)))

/-- The copy of `_normalize_user_id` in the chat router
(src/backend/app/routers/chat.py:285-289): it takes a plain string and has no
falsiness guard. -/
def chat_normalize_user_id {U : Type} (uuidParse : String → Option U)
    (uuid5URL : String → U) (uuidToString : U → String)
    (user_id : String) : String :=
  match uuidParse user_id with
  | some u => uuidToString u
  | none => uuidToString (uuid5URL ("fitai:" ++ user_id))

end UuidModel

namespace Chat

/-- An entry of the history list built by `_history_for_model`: a dict with
string `role` and string `content`. -/
structure ModelMsg where
  role : String
  content : String
deriving DecidableEq

/-- The duplicate-user-message removal step of `post_message`
(src/backend/app/routers/chat.py:1375-1377):
`if history and history[-1].get("role") == "user" and
history[-1].get("content") == payload.content: history = history[:-1]`. -/
def drop_duplicate_user_message (history : List ModelMsg) (content : String) :
    List ModelMsg :=
  match history.getLast? with
  | none => history
  | some last =>
    if last.role = "user" ∧ last.content = content then history.dropLast
    else history

/-- One server-sent event: `data: <chunk>\n\n`. -/
def sseEvent (chunk : String) : String := "data: " ++ chunk ++ "\n\n"

/-- The refusal stream of `post_message` (src/backend/app/routers/chat.py:
1284-1287): the refusal text, then the terminator. -/
def refusal_stream (refusal_text : String) : List String :=
  [sseEvent refusal_text, sseEvent "[DONE]"]

/-- `stream_workout_response` (src/backend/app/routers/chat.py:1326-1357):
a head chunk, a tail chunk depending on workout-creation success, then the
terminator (the database writes between the yields produce no events). -/
def stream_workout_response (success : Bool) : List String :=
  let assistant_text := "One moment while I build your workout."
  let tail :=
    if success then " It's live in your workout view. Go check it out."
    else " Workout failed. Tell me your goal and equipment."
  [sseEvent assistant_text, sseEvent tail, sseEvent "[DONE]"]

/-- `stream_action_confirmation` (src/backend/app/routers/chat.py:1388-1403):
the assistant text, the serialized action event, then the terminator. -/
def stream_action_confirmation (assistant_text action_event : String) :
    List String :=
  [sseEvent assistant_text, sseEvent action_event, sseEvent "[DONE]"]

/-- `stream_inferred_action_confirmation` (src/backend/app/routers/chat.py:
1435-1450): same event shape as `stream_action_confirmation`. -/
def stream_inferred_action_confirmation (assistant_text action_event : String) :
    List String :=
  [sseEvent assistant_text, sseEvent action_event, sseEvent "[DONE]"]

/-- `stream_response` (src/backend/app/routers/chat.py:1530-1576): the trimmed
assistant text, an action event only when a proposal was produced, then the
terminator. -/
def stream_response (assistant_text : String) (action_event : Option String) :
    List String :=
  [sseEvent assistant_text] ++
    (match action_event with
      | some e => [sseEvent e]
      | none => []) ++
    [sseEvent "[DONE]"]

/-- Python `s.split()` on a character list: maximal nonblank runs. -/
def pySplitChars : List Char → List (List Char)
  | [] => []
  | c :: rest =>
    if isPySpace c then pySplitChars rest
    else (c :: rest.takeWhile (fun d => !isPySpace d)) ::
      pySplitChars (rest.dropWhile (fun d => !isPySpace d))
termination_by l => l.length
decreasing_by
  · simp only [List.length_cons]
    omega
  · simp only [List.length_cons]
    have := (List.dropWhile_sublist (l := rest) (fun d => !isPySpace d)).length_le
    omega

/-- Python `" ".join(parts)` on character lists. -/
def joinWords : List (List Char) → List Char
  | [] => []
  | [w] => w
  | w :: rest => w ++ ' ' :: joinWords rest

/-- Python `s.rstrip(chars)`: drop trailing characters drawn from `chars`. -/
def pyRStrip (cs : List Char) (chars : List Char) : List Char :=
  (cs.reverse.dropWhile (fun c => chars.contains c)).reverse

/-- The number of whitespace-separated words, tracked with an inside-a-word
flag (equal to `(pySplitChars l).length` when started outside a word). -/
def wordCount (inWord : Bool) : List Char → Nat
  | [] => 0
  | c :: rest =>
    if isPySpace c then wordCount false rest
    else (if inWord then 0 else 1) + wordCount true rest

/-- A regex-substitution scanner: at each position try the matcher; on
`some (rep, k)` emit the replacement `rep`, consume `k + 1` characters, and
continue after the match; otherwise emit the character and advance. This is
`re.sub` for patterns whose matches are determined by their start position. -/
def applySub (tm : List Char → Option (List Char × Nat)) : List Char → List Char
  | [] => []
  | c :: rest =>
    match tm (c :: rest) with
    | some (rep, k) => rep ++ applySub tm (rest.drop k)
    | none => c :: applySub tm rest
termination_by l => l.length
decreasing_by
  · simp only [List.length_cons]
    have := List.length_drop k rest
    omega
  · simp only [List.length_cons]
    omega

/-- The newline character. -/
def nlChar : Char := Char.ofNat 10

/-- `applySub` for `(?m)^`-anchored patterns: the matcher also receives
whether the current position is a line start, true initially, after a
newline, and after a match whose last consumed character is a newline. -/
def applySubLS (tm : Bool → List Char → Option (List Char × Nat)) :
    Bool → List Char → List Char
  | _, [] => []
  | ls, c :: rest =>
    match tm ls (c :: rest) with
    | some (rep, k) =>
      rep ++ applySubLS tm
        (((c :: rest).take (k + 1)).getLast? == some nlChar) (rest.drop k)
    | none => c :: applySubLS tm (c == nlChar) rest
termination_by _ l => l.length
decreasing_by
  · simp only [List.length_cons]
    have := List.length_drop k rest
    omega
  · simp only [List.length_cons]
    omega

/-- The backtick character. -/
def tickChar : Char := Char.ofNat 96

/-- The asterisk character. -/
def starChar : Char := Char.ofNat 42

/-- The underscore character. -/
def usChar : Char := Char.ofNat 95

/-- Matcher for `cleaned.replace("\r\n", "\n")`. -/
def tmCRLF (l : List Char) : Option (List Char × Nat) :=
  match l with
  | c1 :: c2 :: _ =>
    if c1 = Char.ofNat 13 ∧ c2 = nlChar then some ([nlChar], 1) else none
  | _ => none

/-- Index of the first occurrence of three consecutive backticks. -/
def findTripleTick : List Char → Option Nat
  | c1 :: c2 :: c3 :: rest =>
    if c1 = tickChar ∧ c2 = tickChar ∧ c3 = tickChar then some 0
    else (findTripleTick (c2 :: c3 :: rest)).map (· + 1)
  | _ => none

/-- Matcher for `re.sub(r"```[\s\S]*?```", lambda m:
m.group(0).replace("```", ""), ...)`: a fence pair replaced by its interior
(the non-greedy interior contains no fence, so stripping the fences of the
whole match leaves exactly the interior). -/
def tmFence (l : List Char) : Option (List Char × Nat) :=
  match l with
  | c1 :: c2 :: c3 :: rest =>
    if c1 = tickChar ∧ c2 = tickChar ∧ c3 = tickChar then
      match findTripleTick rest with
      | some i => some (rest.take i, i + 5)
      | none => none
    else none
  | _ => none

/-- Matcher for `re.sub(r"\*\*([^*]+)\*\*", r"\1", ...)`: `**`, a maximal
nonempty run without `*`, then `**`, replaced by the run. -/
def tmBold (l : List Char) : Option (List Char × Nat) :=
  match l with
  | c1 :: c2 :: rest =>
    if c1 = starChar ∧ c2 = starChar then
      let inner := rest.takeWhile (fun c => !(c == starChar))
      match rest.dropWhile (fun c => !(c == starChar)) with
      | d1 :: d2 :: _ =>
        if !inner.isEmpty ∧ d1 = starChar ∧ d2 = starChar then
          some (inner, inner.length + 3)
        else none
      | _ => none
    else none
  | _ => none

/-- Matcher for `re.sub(r"__([^_]+)__", r"\1", ...)`. -/
def tmUnder (l : List Char) : Option (List Char × Nat) :=
  match l with
  | c1 :: c2 :: rest =>
    if c1 = usChar ∧ c2 = usChar then
      let inner := rest.takeWhile (fun c => !(c == usChar))
      match rest.dropWhile (fun c => !(c == usChar)) with
      | d1 :: d2 :: _ =>
        if !inner.isEmpty ∧ d1 = usChar ∧ d2 = usChar then
          some (inner, inner.length + 3)
        else none
      | _ => none
    else none
  | _ => none

/-- Matcher for ``re.sub(r"`([^`]+)`", r"\1", ...)``. -/
def tmCode (l : List Char) : Option (List Char × Nat) :=
  match l with
  | c1 :: rest =>
    if c1 = tickChar then
      let inner := rest.takeWhile (fun c => !(c == tickChar))
      match rest.dropWhile (fun c => !(c == tickChar)) with
      | d1 :: _ =>
        if !inner.isEmpty ∧ d1 = tickChar then some (inner, inner.length + 1)
        else none
      | _ => none
    else none
  | _ => none

/-- Matcher for `.replace("**", "")`. -/
def tmStarStar (l : List Char) : Option (List Char × Nat) :=
  match l with
  | c1 :: c2 :: _ =>
    if c1 = starChar ∧ c2 = starChar then some ([], 1) else none
  | _ => none

/-- Matcher for `.replace("__", "")`. -/
def tmUnderUnder (l : List Char) : Option (List Char × Nat) :=
  match l with
  | c1 :: c2 :: _ =>
    if c1 = usChar ∧ c2 = usChar then some ([], 1) else none
  | _ => none

/-- Matcher for ``.replace("`", "")``. -/
def tmTick (l : List Char) : Option (List Char × Nat) :=
  match l with
  | c1 :: _ => if c1 = tickChar then some ([], 0) else none
  | _ => none

/-- Matcher for `re.sub(r"(?m)^\s{0,3}#{1,6}\s+", "", ...)` at a line start:
at most three whitespace characters, one to six `#`, then a maximal nonempty
whitespace run, all deleted. -/
def tmHeading (ls : Bool) (l : List Char) : Option (List Char × Nat) :=
  if !ls then none
  else
    let m := (l.takeWhile isPySpace).length
    if m ≤ 3 then
      let h := ((l.drop m).takeWhile (fun c => c == '#')).length
      if 1 ≤ h ∧ h ≤ 6 then
        let t := ((l.drop (m + h)).takeWhile isPySpace).length
        if 1 ≤ t then some ([], m + h + t - 1) else none
      else none
    else none

/-- The bullet-marker class `[-*â€¢]`, the three trailing characters written
with explicit code points as the source file stores the bullet mojibake. -/
def isBulletChar (c : Char) : Bool :=
  c = '-' ∨ c = starChar ∨ c = Char.ofNat 226 ∨ c = Char.ofNat 8364 ∨
    c = Char.ofNat 162

/-- Matcher for `re.sub(r"(?m)^\s*[-*â€¢]\s+", "", ...)` at a line start. -/
def tmBullet (ls : Bool) (l : List Char) : Option (List Char × Nat) :=
  if !ls then none
  else
    let m := (l.takeWhile isPySpace).length
    match l.drop m with
    | c :: after =>
      if isBulletChar c then
        let t := (after.takeWhile isPySpace).length
        if 1 ≤ t then some ([], m + 1 + t - 1) else none
      else none
    | [] => none

/-- Matcher for `re.sub(r"(?m)^\s*\d+\s*[.)]\s+", "", ...)` at a line start. -/
def tmEnum (ls : Bool) (l : List Char) : Option (List Char × Nat) :=
  if !ls then none
  else
    let m := (l.takeWhile isPySpace).length
    let d := ((l.drop m).takeWhile Char.isDigit).length
    if 1 ≤ d then
      let m2 := ((l.drop (m + d)).takeWhile isPySpace).length
      match l.drop (m + d + m2) with
      | c :: after =>
        if c = '.' ∨ c = ')' then
          let t := (after.takeWhile isPySpace).length
          if 1 ≤ t then some ([], m + d + m2 + 1 + t - 1) else none
        else none
      | [] => none
    else none

/-- `_sanitize_coach_text` (src/backend/app/routers/chat.py:783-794): the
source's regex passes in order — CRLF normalization, code-fence stripping,
bold/underline/inline-code unwrapping, leftover marker removal, heading,
bullet and enumerator removal at line starts — then whitespace normalization
`" ".join(cleaned.split())` and a final strip. -/
def _sanitize_coach_text (text : List Char) : List Char :=
  let cleaned := applySub tmCRLF text
  let cleaned := applySub tmFence cleaned
  let cleaned := applySub tmBold cleaned
  let cleaned := applySub tmUnder cleaned
  let cleaned := applySub tmCode cleaned
  let cleaned := applySub tmStarStar cleaned
  let cleaned := applySub tmUnderUnder cleaned
  let cleaned := applySub tmTick cleaned
  let cleaned := applySubLS tmHeading true cleaned
  let cleaned := applySubLS tmBullet true cleaned
  let cleaned := applySubLS tmEnum true cleaned
  let cleaned := joinWords (pySplitChars cleaned)
  pyStripChars cleaned

/-- The sentence-ish split `re.split(r"(?<=[.!?])\s+", cleaned)`: a
whitespace run preceded by `.`, `!` or `?` separates parts and is consumed. -/
def splitSentencesGo : List Char → Option Char → List Char → List (List Char)
  | [], _, acc => [acc.reverse]
  | c :: rest, prev, acc =>
    if isPySpace c ∧ (prev = some '.' ∨ prev = some '!' ∨ prev = some '?') then
      acc.reverse :: splitSentencesGo (rest.dropWhile isPySpace) none []
    else splitSentencesGo rest (some c) (c :: acc)
termination_by l _ _ => l.length
decreasing_by
  · simp only [List.length_cons]
    have := (List.dropWhile_sublist (l := rest) isPySpace).length_le
    omega
  · simp only [List.length_cons]
    omega

/-- All parts of the sentence-ish split. -/
def splitSentences (l : List Char) : List (List Char) :=
  splitSentencesGo l none []

/-- `re.search(r"\b\d+\.$", part_stripped) is not None`: the text ends with
a nonempty digit run and a dot, and the character before the run (if any) is
not a word character. -/
def endsWithEnumerator (cs : List Char) : Bool :=
  match cs.reverse with
  | d :: rest =>
    if d = '.' then
      let digits := rest.takeWhile Char.isDigit
      !digits.isEmpty &&
        (match rest.drop digits.length with
          | [] => true
          | b :: _ => !(b.isAlphanum || b == usChar))
    else false
  | [] => false

/-- `re.fullmatch(r"\d+\.", part_stripped) is not None`. -/
def isPureEnumerator (cs : List Char) : Bool :=
  match cs.reverse with
  | d :: rest => d = '.' && !rest.isEmpty && rest.all Char.isDigit
  | [] => false

/-- The enumerator-merging loop of `_trim_coach_reply`
(src/backend/app/routers/chat.py:805-819): a part whose stripped text ends
in an enumerator is glued to the following part when it is a pure enumerator
or contains a colon. -/
def mergeParts : List (List Char) → List (List Char)
  | [] => []
  | [p] => [p]
  | p :: q :: rest =>
    let ps := pyStripChars p
    if endsWithEnumerator ps ∧ (isPureEnumerator ps ∨ p.contains ':') then
      (p ++ ' ' :: q) :: mergeParts rest
    else p :: mergeParts (q :: rest)
termination_by l => l.length
decreasing_by
  · simp only [List.length_cons]
    omega
  · simp only [List.length_cons]
    omega

/-- `re.sub(r"\b\d+\.$", "", trimmed)`: remove a trailing enumerator. -/
def removeTrailingEnum (cs : List Char) : List Char :=
  if endsWithEnumerator cs then
    match cs.reverse with
    | _ :: rest => (rest.dropWhile Char.isDigit).reverse
    | [] => cs
  else cs

/-- `_trim_coach_reply` (src/backend/app/routers/chat.py:797-827): sanitize,
split into sentence-ish parts, merge enumerator fragments, keep the first
`max_sentences` parts, cap at `max_words` words (stripping trailing
punctuation when the cap hits), sanitize again, strip a trailing enumerator,
and strip. -/
def _trim_coach_reply (text : List Char) (max_words : Nat)
    (max_sentences : Nat) : List Char :=
  let cleaned := _sanitize_coach_text text
  if cleaned.isEmpty then cleaned
  else
    let parts := splitSentences cleaned
    let merged := mergeParts parts
    let trimmed := joinWords (merged.take max_sentences)
    let words := pySplitChars trimmed
    let trimmed :=
      if words.length > max_words then
        pyRStrip (joinWords (words.take max_words)) ['.', ',', '!', '?']
      else trimmed
    let trimmed := _sanitize_coach_text trimmed
    pyStripChars (removeTrailingEnum trimmed)

end Chat

/-!
Theorems. Claim-bearing theorems are named `Ck_...`; everything else is a
helper lemma.
-/

/-- C1: for every current-macros dict and every normalized macro delta
(integer values, possibly missing or `None`), the macros produced by
`_apply_macro_delta` have calories at least 1200, no matter how negative the
delta's calories entry is. -/
theorem C1_apply_macro_delta_calories_floor
    (current delta : Checkins.MacroDict) :
    1200 ≤ (Checkins.apply_macro_delta current delta).calories := by
  unfold Checkins.apply_macro_delta
  dsimp only
  split
  · omega
  · next h => omega

namespace Onboarding

/-- Round-half-to-even of an exact integer multiple is that integer. -/
theorem roundHalfEven_intCast (k : ℤ) : roundHalfEven (k : ℚ) = k := by
  unfold roundHalfEven
  rw [Int.floor_intCast]
  norm_num

/-- Round-half-to-even moves its argument by at most one half. -/
theorem abs_roundHalfEven_sub (x : ℚ) : |(roundHalfEven x : ℚ) - x| ≤ 1 / 2 := by
  unfold roundHalfEven
  have hf : (⌊x⌋ : ℚ) ≤ x := Int.floor_le x
  have hf1 : x < (⌊x⌋ : ℚ) + 1 := Int.lt_floor_add_one x
  split_ifs with h h2 h3
  · rw [abs_sub_comm, abs_of_nonneg (by linarith)]; linarith
  · push_cast
    push_neg at h
    rw [abs_of_nonneg (by linarith)]; linarith
  · push_neg at h h2
    rw [abs_sub_comm, abs_of_nonneg (by linarith)]; linarith
  · push_neg at h h2
    push_cast
    rw [abs_of_nonneg (by linarith)]; linarith

/-- `round(x, 2)` is exact on two-decimal rationals. -/
theorem round2_eq_self (x : ℚ) (k : ℤ) (hk : x * 100 = (k : ℚ)) : round2 x = x := by
  unfold round2
  rw [hk, roundHalfEven_intCast, ← hk]
  field_simp

/-- `round(x, 2)` moves its argument by at most half of 0.01. -/
theorem abs_round2_sub (x : ℚ) : |round2 x - x| ≤ 1 / 200 := by
  unfold round2
  have h := abs_roundHalfEven_sub (x * 100)
  have : (roundHalfEven (x * 100) : ℚ) / 100 - x =
      ((roundHalfEven (x * 100) : ℚ) - x * 100) / 100 := by ring
  rw [this, abs_div]
  rw [abs_of_nonneg (by norm_num : (0:ℚ) ≤ 100)]
  linarith

/-- Closed form of `_height_cm` when at least one field parses. -/
theorem _height_cm_eq (f i : Option String)
    (h : ¬(_parse_int f = none ∧ _parse_int i = none)) :
    _height_cm f i =
      some (((((_parse_int f).getD 0 : ℤ) : ℚ) * 3048 +
        (((_parse_int i).getD 0 : ℤ) : ℚ) * 254) / 100) := by
  unfold _height_cm
  rw [if_neg h]
  congr 1
  have hx : ((((_parse_int f).getD 0 : ℤ) : ℚ) * (30.48 : ℚ) +
      (((_parse_int i).getD 0 : ℤ) : ℚ) * (2.54 : ℚ)) =
      ((((_parse_int f).getD 0 : ℤ) : ℚ) * 3048 +
        (((_parse_int i).getD 0 : ℤ) : ℚ) * 254) / 100 := by
    norm_num
    ring
  rw [hx]
  exact round2_eq_self _ ((_parse_int f).getD 0 * 3048 + (_parse_int i).getD 0 * 254)
    (by push_cast; ring)

end Onboarding

/-- C5: onboarding unit conversion is exact to two-decimal rounding. For feet
and inches strings that parse as integers (an unparseable one of the pair
treated as 0), `_height_cm` returns `round(feet * 30.48 + inches * 2.54, 2)`,
which is exactly `(feet * 3048 + inches * 254) / 100`; it returns `None` only
when both fail to parse. For a pounds string that parses as a float,
`_weight_kg` returns `round(pounds * 0.45359237, 2)`, which is within 1/200
of the exact product, and `None` when the string does not parse. -/
theorem C5_onboarding_unit_conversion :
    (∀ f i fv iv, Onboarding.pyParseInt f = some fv →
      Onboarding.pyParseInt i = some iv →
      Onboarding._height_cm (some f) (some i) =
        some (((fv : ℚ) * 3048 + (iv : ℚ) * 254) / 100) ∧
      round2 ((fv : ℚ) * (30.48 : ℚ) + (iv : ℚ) * (2.54 : ℚ)) =
        ((fv : ℚ) * 3048 + (iv : ℚ) * 254) / 100) ∧
    (∀ f fv i, Onboarding.pyParseInt f = some fv → Onboarding._parse_int i = none →
      Onboarding._height_cm (some f) i = some ((fv : ℚ) * 3048 / 100)) ∧
    (∀ f i fv, Onboarding._parse_int f = none → Onboarding.pyParseInt i = some fv →
      Onboarding._height_cm f (some i) = some ((fv : ℚ) * 254 / 100)) ∧
    (∀ f i, Onboarding._parse_int f = none → Onboarding._parse_int i = none →
      Onboarding._height_cm f i = none) ∧
    (∀ p pv, Onboarding.pyParseFloat p = some pv →
      Onboarding._weight_kg (some p) =
        some (round2 (pv * (0.45359237 : ℚ))) ∧
      |round2 (pv * (0.45359237 : ℚ)) - pv * (0.45359237 : ℚ)| ≤ 1 / 200) ∧
    (∀ p, Onboarding._parse_float p = none → Onboarding._weight_kg p = none) := by
  have hround : ∀ fv iv : ℤ,
      round2 ((fv : ℚ) * (30.48 : ℚ) + (iv : ℚ) * (2.54 : ℚ)) =
        ((fv : ℚ) * 3048 + (iv : ℚ) * 254) / 100 := by
    intro fv iv
    have hx : ((fv : ℚ) * (30.48 : ℚ) + (iv : ℚ) * (2.54 : ℚ)) =
        ((fv : ℚ) * 3048 + (iv : ℚ) * 254) / 100 := by norm_num; ring
    rw [hx, Onboarding.round2_eq_self _ (fv * 3048 + iv * 254) (by push_cast; ring)]
  refine ⟨?_, ?_, ?_, ?_, ?_, ?_⟩
  · intro f i fv iv hf hi
    have h1 : Onboarding._parse_int (some f) = some fv := by
      simp [Onboarding._parse_int, hf]
    have h2 : Onboarding._parse_int (some i) = some iv := by
      simp [Onboarding._parse_int, hi]
    refine ⟨?_, hround fv iv⟩
    rw [Onboarding._height_cm_eq _ _ (by simp [h1]), h1, h2]
    simp
  · intro f fv i hf hi
    have h1 : Onboarding._parse_int (some f) = some fv := by
      simp [Onboarding._parse_int, hf]
    rw [Onboarding._height_cm_eq _ _ (by simp [h1]), h1, hi]
    simp
  · intro f i fv hf hi
    have h2 : Onboarding._parse_int (some i) = some fv := by
      simp [Onboarding._parse_int, hi]
    rw [Onboarding._height_cm_eq _ _ (by simp [h2]), h2, hf]
    norm_num
  · intro f i hf hi
    unfold Onboarding._height_cm
    simp [hf, hi]
  · intro p pv hp
    constructor
    · unfold Onboarding._weight_kg
      simp [Onboarding._parse_float, hp]
    · exact Onboarding.abs_round2_sub _
  · intro p hp
    unfold Onboarding._weight_kg
    rw [hp]

/-- Witness for C5 at the concrete intake 5 ft 11 in, 180 lbs. -/
theorem C5_onboarding_unit_conversion_witness :
    Onboarding._height_cm (some "5") (some "11") =
      some (((((5 : ℤ)) : ℚ) * 3048 + (((11 : ℤ)) : ℚ) * 254) / 100) ∧
    Onboarding._weight_kg (some "180") =
      some (round2 ((180 : ℚ) * (0.45359237 : ℚ))) ∧
    |round2 ((180 : ℚ) * (0.45359237 : ℚ)) -
      (180 : ℚ) * (0.45359237 : ℚ)| ≤ 1 / 200 := by
  refine ⟨?_, ?_, ?_⟩
  · exact (C5_onboarding_unit_conversion.1 "5" "11" 5 11 (by decide) (by decide)).1
  · exact (C5_onboarding_unit_conversion.2.2.2.2.1 "180" 180 (by decide)).1
  · exact (C5_onboarding_unit_conversion.2.2.2.2.1 "180" 180 (by decide)).2

namespace Auth

/-- A successful email lookup returns a row of the table with that email. -/
theorem selectUserByEmail_mem (db : List UserRow) (e : String) (r : UserRow)
    (h : selectUserByEmail db e = some r) : r ∈ db ∧ r.email = e := by
  unfold selectUserByEmail at h
  have hmem : r ∈ db.filter (fun r => r.email = e) := by
    cases hf : db.filter (fun r => r.email = e) with
    | nil => rw [hf] at h; simp at h
    | cons a t =>
      rw [hf] at h
      simp only [List.head?_cons, Option.some.injEq] at h
      subst h
      exact List.mem_cons_self a t
  rw [List.mem_filter] at hmem
  exact ⟨hmem.1, by simpa using hmem.2⟩

/-- With pairwise-distinct emails, the lookup finds any matching row. -/
theorem selectUserByEmail_unique (db : List UserRow) (e : String) (r : UserRow)
    (hn : (db.map UserRow.email).Nodup) (hr : r ∈ db) (he : r.email = e) :
    selectUserByEmail db e = some r := by
  induction db with
  | nil => simp at hr
  | cons d db ih =>
    simp only [List.map_cons, List.nodup_cons] at hn
    rcases List.mem_cons.mp hr with h1 | h1
    · subst h1
      unfold selectUserByEmail
      simp [List.filter_cons, he]
    · have hd : ¬(d.email = e) := by
        intro hde
        exact hn.1 (by
          rw [hde, ← he]
          exact List.mem_map_of_mem UserRow.email h1)
      have := ih hn.2 h1
      unfold selectUserByEmail at this ⊢
      simpa [List.filter_cons, hd] using this

end Auth

/-- C7: `login` succeeds exactly when a `users` row with the given email
exists (emails taken pairwise distinct) and its stored `hashed_password`
equals the unsalted hex SHA-256 digest of the supplied password; it returns
HTTP 401 with detail Invalid credentials both when no row matches and when
the digests differ; `register` stores exactly that digest, so a `register`
of a fresh email followed by a `login` with the same email and password
succeeds. The digest function is a parameter applied by both endpoints. -/
theorem C7_login_register_unsalted_sha256 :
    ∀ (sha256hex : String → String) (db : List Auth.UserRow)
      (email password : String),
      ((db.map Auth.UserRow.email).Nodup →
        ((∃ uid, Auth.login sha256hex db email password = Sum.inr uid) ↔
          ∃ r ∈ db, r.email = email ∧ r.hashed_password = sha256hex password)) ∧
      ((db.map Auth.UserRow.email).Nodup →
        ∀ r ∈ db, r.email = email → r.hashed_password = sha256hex password →
          Auth.login sha256hex db email password = Sum.inr r.id) ∧
      ((db.map Auth.UserRow.email).Nodup →
        (¬∃ r ∈ db, r.email = email ∧ r.hashed_password = sha256hex password) →
          Auth.login sha256hex db email password =
            Sum.inl (401, "Invalid credentials")) ∧
      (∀ new_id role,
        (Auth.register sha256hex db new_id email password role).1 =
          db ++ [{ id := new_id, email := email,
                   hashed_password := sha256hex password, role := role }]) ∧
      (∀ new_id role, email ∉ db.map Auth.UserRow.email →
        Auth.login sha256hex
          (Auth.register sha256hex db new_id email password role).1
          email password = Sum.inr new_id) := by
  intro sha db email password
  have hlookup : ∀ r ∈ db, r.email = email → r.hashed_password = sha password →
      (db.map Auth.UserRow.email).Nodup →
      Auth.login sha db email password = Sum.inr r.id := by
    intro r hr he hh hn
    unfold Auth.login
    rw [Auth.selectUserByEmail_unique db email r hn hr he]
    simp [hh]
  refine ⟨?_, ?_, ?_, ?_, ?_⟩
  · intro hn
    constructor
    · rintro ⟨uid, huid⟩
      unfold Auth.login at huid
      cases hsel : Auth.selectUserByEmail db email with
      | none => rw [hsel] at huid; simp at huid
      | some user =>
        rw [hsel] at huid
        by_cases hh : user.hashed_password = sha password
        · obtain ⟨hmem, hemail⟩ := Auth.selectUserByEmail_mem db email user hsel
          exact ⟨user, hmem, hemail, hh⟩
        · simp [hh] at huid
    · rintro ⟨r, hr, he, hh⟩
      exact ⟨r.id, hlookup r hr he hh hn⟩
  · intro hn r hr he hh
    exact hlookup r hr he hh hn
  · intro hn hno
    unfold Auth.login
    cases hsel : Auth.selectUserByEmail db email with
    | none => rfl
    | some user =>
      obtain ⟨hmem, hemail⟩ := Auth.selectUserByEmail_mem db email user hsel
      have hh : ¬(user.hashed_password = sha password) := by
        intro hh
        exact hno ⟨user, hmem, hemail, hh⟩
      simp [hh]
  · intro new_id role
    rfl
  · intro new_id role hfresh
    unfold Auth.login
    have hsel : Auth.selectUserByEmail
        (Auth.register sha db new_id email password role).1 email =
        some { id := new_id, email := email,
               hashed_password := sha password, role := role } := by
      unfold Auth.selectUserByEmail Auth.register
      rw [List.filter_append]
      have hnil : db.filter (fun r => r.email = email) = [] := by
        rw [List.filter_eq_nil_iff]
        intro r hr
        simp only [decide_eq_true_eq]
        intro he
        exact hfresh (by rw [← he]; exact List.mem_map_of_mem Auth.UserRow.email hr)
      rw [hnil]
      simp
    rw [hsel]
    simp

/-- Witness for C7: a one-row table and a register-then-login round trip,
with the digest instantiated as string suffixing. -/
theorem C7_login_register_unsalted_sha256_witness :
    Auth.login (fun s => s ++ "#")
      [{ id := "u1", email := "a@b.c", hashed_password := "pw#", role := "user" }]
      "a@b.c" "pw" = Sum.inr "u1" ∧
    Auth.login (fun s => s ++ "#")
      (Auth.register (fun s => s ++ "#") [] "u2" "a@b.c" "pw" "user").1
      "a@b.c" "pw" = Sum.inr "u2" := by
  constructor
  · exact (C7_login_register_unsalted_sha256 (fun s => s ++ "#")
      [{ id := "u1", email := "a@b.c", hashed_password := "pw#", role := "user" }]
      "a@b.c" "pw").2.1 (by decide)
      { id := "u1", email := "a@b.c", hashed_password := "pw#", role := "user" }
      (List.mem_singleton.mpr rfl) rfl (by decide)
  · exact (C7_login_register_unsalted_sha256 (fun s => s ++ "#") [] "a@b.c"
      "pw").2.2.2.2 "u2" "user" (by simp)

/-- C9: the three copies of `_normalize_user_id` in the workouts, nutrition,
and chat routers compute the same function on every non-empty input string:
the canonical string of the parsed UUID when the input parses, otherwise the
UUIDv5 of `fitai:<input>` in the URL namespace, and the result is always the
string form of some UUID. -/
theorem C9_normalize_user_id_copies_agree :
    ∀ (U : Type) (uuidParse : String → Option U) (uuid5URL : String → U)
      (uuidToString : U → String) (s : String), s ≠ "" →
      workouts_normalize_user_id uuidParse uuid5URL uuidToString (some s) =
        some (chat_normalize_user_id uuidParse uuid5URL uuidToString s) ∧
      nutrition_normalize_user_id uuidParse uuid5URL uuidToString (some s) =
        some (chat_normalize_user_id uuidParse uuid5URL uuidToString s) ∧
      ∃ u : U, chat_normalize_user_id uuidParse uuid5URL uuidToString s =
        uuidToString u := by
  intro U p u5 ts s hs
  unfold workouts_normalize_user_id nutrition_normalize_user_id
    chat_normalize_user_id
  cases hp : p s with
  | some u => exact ⟨by simp [hs, hp], by simp [hs, hp], u, by simp [hp]⟩
  | none =>
    exact ⟨by simp [hs, hp], by simp [hs, hp], u5 ("fitai:" ++ s), by simp [hp]⟩

/-- Witness for C9 at the external identifier alice, with the UUID library
modelled trivially. -/
theorem C9_normalize_user_id_copies_agree_witness :
    workouts_normalize_user_id (fun _ => (none : Option Unit)) (fun _ => ())
      (fun _ => "v5") (some "alice") =
      some (chat_normalize_user_id (fun _ => (none : Option Unit)) (fun _ => ())
        (fun _ => "v5") "alice") ∧
    nutrition_normalize_user_id (fun _ => (none : Option Unit)) (fun _ => ())
      (fun _ => "v5") (some "alice") =
      some (chat_normalize_user_id (fun _ => (none : Option Unit)) (fun _ => ())
        (fun _ => "v5") "alice") ∧
    ∃ u : Unit, chat_normalize_user_id (fun _ => (none : Option Unit))
      (fun _ => ()) (fun _ => "v5") "alice" = (fun _ => "v5") u :=
  C9_normalize_user_id_copies_agree Unit (fun _ => none) (fun _ => ())
    (fun _ => "v5") "alice" (by decide)

/-- C4: the duplicate-user-message step of `post_message` removes at most one
entry, and only when the last history entry has role user and content exactly
equal to the incoming message; all earlier entries remain unchanged and in
order (the history equals the returned prefix plus the removed entry). -/
theorem C4_duplicate_user_message_removal :
    ∀ (history : List Chat.ModelMsg) (content : String),
      (∀ last, history.getLast? = some last → last.role = "user" →
        last.content = content →
        Chat.drop_duplicate_user_message history content = history.dropLast ∧
        history = history.dropLast ++ [last]) ∧
      ((∀ last, history.getLast? = some last →
          ¬(last.role = "user" ∧ last.content = content)) →
        Chat.drop_duplicate_user_message history content = history) := by
  intro history content
  constructor
  · intro last hl hr hc
    have hne : history ≠ [] := by
      intro h
      rw [h] at hl
      simp at hl
    constructor
    · simp only [Chat.drop_duplicate_user_message, hl]
      rw [if_pos ⟨hr, hc⟩]
    · have h1 := List.dropLast_append_getLast hne
      have h2 : history.getLast hne = last := by
        rw [List.getLast?_eq_getLast history hne] at hl
        exact (Option.some.injEq _ _).mp hl.symm |>.symm
      rw [← h2]
      exact h1.symm
  · intro hnone
    cases hl : history.getLast? with
    | none => simp only [Chat.drop_duplicate_user_message, hl]
    | some last =>
      simp only [Chat.drop_duplicate_user_message, hl]
      rw [if_neg (hnone last hl)]

/-- Witness for C4: a single echoed user message is removed, leaving the
empty prefix. -/
theorem C4_duplicate_user_message_removal_witness :
    Chat.drop_duplicate_user_message [{ role := "user", content := "hi" }] "hi" =
      ([{ role := "user", content := "hi" }] : List Chat.ModelMsg).dropLast ∧
    [{ role := "user", content := "hi" }] =
      ([{ role := "user", content := "hi" }] : List Chat.ModelMsg).dropLast ++
        [{ role := "user", content := "hi" }] :=
  (C4_duplicate_user_message_removal [{ role := "user", content := "hi" }]
    "hi").1 { role := "user", content := "hi" } rfl rfl rfl

namespace Workouts

/-- Core `List.lookup` succeeds exactly on stored keys. -/
theorem lookup_isSome_iff (name : String) (acc : List (String × ℚ)) :
    (acc.lookup name).isSome ↔ name ∈ acc.map Prod.fst := by
  induction acc with
  | nil => simp
  | cons p t ih =>
    obtain ⟨k, v⟩ := p
    rw [List.map_cons]
    by_cases h : name = k
    · subst h
      simp [List.lookup]
    · have hbeq : (name == k) = false := by simp [h]
      show (match name == k with
        | true => some v
        | false => List.lookup name t).isSome = true ↔ _
      rw [hbeq]
      constructor
      · intro hm
        exact List.mem_cons.mpr (Or.inr (ih.mp hm))
      · intro hm
        rcases List.mem_cons.mp hm with hk | hm2
        · exact absurd hk h
        · exact ih.mpr hm2

/-- `updateBest` keeps the key list, only appending a genuinely new key. -/
theorem updateBest_keys (acc : List (String × ℚ)) (name : String) (est : ℚ) :
    (updateBest acc name est).map Prod.fst =
      if (acc.lookup name).isSome then acc.map Prod.fst
      else acc.map Prod.fst ++ [name] := by
  unfold updateBest
  split
  · rw [List.map_map]
    apply List.map_congr_left
    intro p _
    by_cases h : p.1 = name <;> simp [h]
  · simp

/-- `updateBest` preserves distinctness of the dict keys. -/
theorem updateBest_keys_nodup (acc : List (String × ℚ)) (name : String)
    (est : ℚ) (h : (acc.map Prod.fst).Nodup) :
    ((updateBest acc name est).map Prod.fst).Nodup := by
  rw [updateBest_keys]
  split
  · exact h
  · next hl =>
    rw [List.nodup_append]
    refine ⟨h, List.nodup_singleton name, ?_⟩
    intro a ha hb
    rw [List.mem_singleton] at hb
    subst hb
    exact hl ((lookup_isSome_iff a acc).mpr ha)

/-- The keys of `best_by_exercise` are pairwise distinct (it is a dict). -/
theorem best_by_exercise_keys_nodup (logs : List LogRow) :
    ((best_by_exercise logs).map Prod.fst).Nodup := by
  unfold best_by_exercise
  suffices h : ∀ acc : List (String × ℚ), (acc.map Prod.fst).Nodup →
      ((logs.foldl (fun acc log =>
        let reps := log.reps.getD 0
        let weight := log.weight.getD 0
        let estimate := _estimate_one_rep_max weight reps
        if estimate ≤ 0 then acc
        else updateBest acc (logName log) estimate) acc).map Prod.fst).Nodup by
    exact h [] (by simp)
  induction logs with
  | nil => intro acc h; simpa using h
  | cons log t ih =>
    intro acc h
    rw [List.foldl_cons]
    apply ih
    dsimp only
    split
    · exact h
    · exact updateBest_keys_nodup _ _ _ h

/-- In a list with distinct keys, a key determines its value. -/
theorem keys_nodup_mem_unique {l : List (String × ℚ)}
    (hn : (l.map Prod.fst).Nodup) {n : String} {v v' : ℚ}
    (h1 : (n, v) ∈ l) (h2 : (n, v') ∈ l) : v = v' := by
  induction l with
  | nil => simp at h1
  | cons p t ih =>
    simp only [List.map_cons, List.nodup_cons] at hn
    rcases List.mem_cons.mp h1 with e1 | m1
    · rcases List.mem_cons.mp h2 with e2 | m2
      · rw [← e1] at e2
        exact (Prod.mk.injEq _ _ _ _).mp e2 |>.2.symm
      · exfalso
        apply hn.1
        rw [← e1]
        simpa using List.mem_map_of_mem Prod.fst m2
    · rcases List.mem_cons.mp h2 with e2 | m2
      · exfalso
        apply hn.1
        rw [← e2]
        simpa using List.mem_map_of_mem Prod.fst m1
      · exact ih hn.2 m1 m2

end Workouts

/-- C2: per-user, per-exercise stored `estimated_1rm` PR values are
monotonically non-decreasing across `complete_session`: an exercise whose
best logged estimate is at most the highest stored value is omitted from the
returned `prs` list (no row is inserted for it), and every returned entry
(equivalently every inserted row) either has no stored predecessor or
strictly exceeds it, and reports the best session estimate as its value. -/
theorem C2_pr_update_monotonic :
    ∀ (stored : String → Option ℚ) (logs : List Workouts.LogRow),
      (∀ n v pv, (n, v) ∈ Workouts.best_by_exercise logs → stored n = some pv →
        v ≤ pv →
        ∀ e ∈ Workouts.complete_session_prs stored logs, e.exercise_name ≠ n) ∧
      (∀ e ∈ Workouts.complete_session_prs stored logs,
        (stored e.exercise_name = none ∧ e.previous_value = none ∨
          ∃ pv, stored e.exercise_name = some pv ∧ pv < e.value ∧
            e.previous_value = some pv) ∧
        (e.exercise_name, e.value) ∈ Workouts.best_by_exercise logs) := by
  intro stored logs
  constructor
  · intro n v pv hb hs hle e he
    unfold Workouts.complete_session_prs Workouts.pr_loop at he
    rw [List.mem_filterMap] at he
    obtain ⟨p, hp, hfp⟩ := he
    intro hne
    cases hsp : stored p.1 with
    | some pv' =>
      rw [hsp] at hfp
      simp only [] at hfp
      by_cases hc : p.2 ≤ pv'
      · rw [if_pos hc] at hfp
        exact Option.noConfusion hfp
      · rw [if_neg hc] at hfp
        have he2 := Option.some.inj hfp
        have hp1 : p.1 = n := by rw [← hne, ← he2]
        rw [hp1] at hsp
        rw [hs] at hsp
        have hpv : pv' = pv := (Option.some.inj hsp).symm
        have hmem : (n, p.2) ∈ Workouts.best_by_exercise logs := by
          rw [← hp1]
          exact hp
        have hv : p.2 = v :=
          Workouts.keys_nodup_mem_unique
            (Workouts.best_by_exercise_keys_nodup logs) hmem hb
        apply hc
        rw [hv, hpv]
        exact hle
    | none =>
      rw [hsp] at hfp
      simp only [] at hfp
      have he2 := Option.some.inj hfp
      have hp1 : p.1 = n := by rw [← hne, ← he2]
      rw [hp1, hs] at hsp
      exact Option.noConfusion hsp
  · intro e he
    unfold Workouts.complete_session_prs Workouts.pr_loop at he
    rw [List.mem_filterMap] at he
    obtain ⟨p, hp, hfp⟩ := he
    cases hsp : stored p.1 with
    | some pv' =>
      rw [hsp] at hfp
      simp only [] at hfp
      by_cases hc : p.2 ≤ pv'
      · rw [if_pos hc] at hfp
        exact Option.noConfusion hfp
      · rw [if_neg hc] at hfp
        have he2 := Option.some.inj hfp
        rw [← he2]
        refine ⟨Or.inr ⟨pv', hsp, lt_of_not_le hc, rfl⟩, ?_⟩
        simpa using hp
    | none =>
      rw [hsp] at hfp
      simp only [] at hfp
      have he2 := Option.some.inj hfp
      rw [← he2]
      refine ⟨Or.inl ⟨hsp, rfl⟩, ?_⟩
      simpa using hp

/-- Witness for C2: with a stored Bench PR of 100, a session whose Bench
estimate is 60 and Squat estimate is 100 updates only Squat. -/
theorem C2_pr_update_monotonic_witness :
    (Workouts.PrUpdate.mk "Squat" 100 none).exercise_name ≠ "Bench" ∧
    (Workouts.witnessStored
        (Workouts.PrUpdate.mk "Squat" 100 none).exercise_name = none ∧
      (Workouts.PrUpdate.mk "Squat" 100 none).previous_value = none ∨
      ∃ pv, Workouts.witnessStored
          (Workouts.PrUpdate.mk "Squat" 100 none).exercise_name = some pv ∧
        pv < (Workouts.PrUpdate.mk "Squat" 100 none).value ∧
        (Workouts.PrUpdate.mk "Squat" 100 none).previous_value = some pv) ∧
    ((Workouts.PrUpdate.mk "Squat" 100 none).exercise_name,
      (Workouts.PrUpdate.mk "Squat" 100 none).value) ∈
      Workouts.best_by_exercise Workouts.witnessLogs := by
  have he1 : Workouts._estimate_one_rep_max 30 30 = 60 := by
    unfold Workouts._estimate_one_rep_max
    rw [if_neg (by norm_num)]
    rw [show (30 : ℚ) * (1 + ((30 : ℤ) : ℚ) / 30) = 60 by push_cast; norm_num]
    exact Onboarding.round2_eq_self 60 6000 (by norm_num)
  have he2 : Workouts._estimate_one_rep_max 50 30 = 100 := by
    unfold Workouts._estimate_one_rep_max
    rw [if_neg (by norm_num)]
    rw [show (50 : ℚ) * (1 + ((30 : ℤ) : ℚ) / 30) = 100 by push_cast; norm_num]
    exact Onboarding.round2_eq_self 100 10000 (by norm_num)
  have hu1 : Workouts.updateBest [] "Bench" 60 = [("Bench", 60)] := by
    unfold Workouts.updateBest
    rw [if_neg (by simp [List.lookup])]
    rw [max_eq_right (by norm_num : (0:ℚ) ≤ 60)]
    rfl
  have hu2 : Workouts.updateBest [("Bench", 60)] "Squat" 100 =
      [("Bench", 60), ("Squat", 100)] := by
    unfold Workouts.updateBest
    rw [if_neg (by simp [List.lookup])]
    rw [max_eq_right (by norm_num : (0:ℚ) ≤ 100)]
    rfl
  have hbest : Workouts.best_by_exercise Workouts.witnessLogs =
      [("Bench", 60), ("Squat", 100)] := by
    unfold Workouts.best_by_exercise Workouts.witnessLogs
    rw [List.foldl_cons, List.foldl_cons, List.foldl_nil]
    dsimp only [Workouts.logName, Option.getD]
    rw [he1, he2]
    rw [if_neg (by norm_num : ¬(60:ℚ) ≤ 0)]
    rw [show (if ("Bench" : String) = "" then "Unknown" else "Bench") = "Bench" by decide]
    rw [hu1]
    rw [if_neg (by norm_num : ¬(100:ℚ) ≤ 0)]
    rw [show (if ("Squat" : String) = "" then "Unknown" else "Squat") = "Squat" by decide]
    rw [hu2]
  have hbmem : ("Bench", (60 : ℚ)) ∈
      Workouts.best_by_exercise Workouts.witnessLogs := by
    rw [hbest]
    exact List.mem_cons_self _ _
  have hstored : Workouts.witnessStored "Bench" = some 100 := by
    unfold Workouts.witnessStored
    rw [if_pos rfl]
  have hprs : Workouts.complete_session_prs Workouts.witnessStored
      Workouts.witnessLogs = [Workouts.PrUpdate.mk "Squat" 100 none] := by
    unfold Workouts.complete_session_prs Workouts.pr_loop
    rw [hbest]
    rw [List.filterMap_cons, List.filterMap_cons, List.filterMap_nil]
    have hs1 : Workouts.witnessStored "Bench" = some 100 := hstored
    have hs2 : Workouts.witnessStored "Squat" = none := by
      unfold Workouts.witnessStored
      rw [if_neg (by decide)]
    dsimp only
    rw [hs1, hs2]
    simp only []
    rw [if_pos (by norm_num : (60 : ℚ) ≤ 100)]
  have hprsmem : Workouts.PrUpdate.mk "Squat" 100 none ∈
      Workouts.complete_session_prs Workouts.witnessStored
        Workouts.witnessLogs := by
    rw [hprs]
    exact List.mem_cons_self _ _
  refine ⟨?_, ?_⟩
  · exact (C2_pr_update_monotonic Workouts.witnessStored Workouts.witnessLogs).1
      "Bench" 60 100 hbmem hstored (by norm_num)
      (Workouts.PrUpdate.mk "Squat" 100 none) hprsmem
  · exact (C2_pr_update_monotonic Workouts.witnessStored Workouts.witnessLogs).2
      (Workouts.PrUpdate.mk "Squat" 100 none) hprsmem

/-- Zeta-reduced form of `resolveRetention`. -/
theorem Checkins.resolveRetention_eq (r : Option String) :
    Checkins.resolveRetention r =
      if pyLower (pyStrip (pyOrStr r Checkins.PHOTO_RETENTION_STORE)) =
            Checkins.PHOTO_RETENTION_STORE ∨
          pyLower (pyStrip (pyOrStr r Checkins.PHOTO_RETENTION_STORE)) =
            Checkins.PHOTO_RETENTION_DELETE_AFTER_SCAN then
        pyLower (pyStrip (pyOrStr r Checkins.PHOTO_RETENTION_STORE))
      else Checkins.PHOTO_RETENTION_STORE := rfl

/-- C3 counterexample: at the concrete payloads `{}` and `{}` both
normalizers succeed, but the USDA key list and the FatSecret key list are
different sets: FatSecret has `id`, `serving_options` and `food_id` where
USDA has `fdc_id`, so the claim that the two dicts have the same set of keys
is false. -/
theorem C3_same_schema_counterexample :
    (Nutrition._normalize_usda_food (Json.obj [])).map
        (fun l => l.map Prod.fst) =
      some ["source", "name", "serving", "protein", "carbs", "fats",
        "calories", "metadata", "fdc_id"] ∧
    (Nutrition._normalize_fatsecret_detail (Json.obj [])).map
        (fun l => l.map Prod.fst) =
      some ["id", "source", "name", "serving", "protein", "carbs", "fats",
        "calories", "serving_options", "metadata", "food_id"] ∧
    (["source", "name", "serving", "protein", "carbs", "fats", "calories",
        "metadata", "fdc_id"] : List String).toFinset ≠
      (["id", "source", "name", "serving", "protein", "carbs", "fats",
        "calories", "serving_options", "metadata", "food_id"] :
        List String).toFinset := by
  refine ⟨rfl, rfl, by decide⟩

/-- C3 amended: every successful USDA normalization yields exactly the keys
source, name, serving, protein, carbs, fats, calories, metadata, fdc_id (in
that order), and every successful FatSecret normalization yields exactly id,
source, name, serving, protein, carbs, fats, calories, serving_options,
metadata, food_id; the two schemas share the core keys source, name,
serving, protein, carbs, fats, calories and metadata, but the identifier
keys differ (`fdc_id` versus `id`/`food_id`) and `serving_options` exists
only for FatSecret, so the full key sets are not equal. -/
theorem C3_same_schema_amended :
    ∀ (food₁ food₂ : Json) (u f : List (String × Json)),
      Nutrition._normalize_usda_food food₁ = some u →
      Nutrition._normalize_fatsecret_detail food₂ = some f →
      u.map Prod.fst = ["source", "name", "serving", "protein", "carbs",
        "fats", "calories", "metadata", "fdc_id"] ∧
      f.map Prod.fst = ["id", "source", "name", "serving", "protein", "carbs",
        "fats", "calories", "serving_options", "metadata", "food_id"] ∧
      ∀ k ∈ (["source", "name", "serving", "protein", "carbs", "fats",
        "calories", "metadata"] : List String),
        k ∈ u.map Prod.fst ∧ k ∈ f.map Prod.fst := by
  intro food₁ food₂ u f hu hf
  unfold Nutrition._normalize_usda_food at hu
  rw [Option.map_eq_some'] at hu
  obtain ⟨parts, -, hparts⟩ := hu
  obtain ⟨name, fdc_id, serving, protein, carbs, fats, calories⟩ := parts
  unfold Nutrition._normalize_fatsecret_detail at hf
  rw [Option.map_eq_some'] at hf
  obtain ⟨parts2, -, hparts2⟩ := hf
  obtain ⟨name2, food_id, serving_text, all_servings, brand⟩ := parts2
  have hukeys : u.map Prod.fst = ["source", "name", "serving", "protein",
      "carbs", "fats", "calories", "metadata", "fdc_id"] := by
    rw [← hparts]
    rfl
  have hfkeys : f.map Prod.fst = ["id", "source", "name", "serving",
      "protein", "carbs", "fats", "calories", "serving_options", "metadata",
      "food_id"] := by
    rw [← hparts2]
    rfl
  refine ⟨hukeys, hfkeys, ?_⟩
  intro k hk
  rw [hukeys, hfkeys]
  simp only [List.mem_cons, List.not_mem_nil, or_false] at hk
  rcases hk with rfl | rfl | rfl | rfl | rfl | rfl | rfl | rfl
  · exact ⟨by decide, by decide⟩
  · exact ⟨by decide, by decide⟩
  · exact ⟨by decide, by decide⟩
  · exact ⟨by decide, by decide⟩
  · exact ⟨by decide, by decide⟩
  · exact ⟨by decide, by decide⟩
  · exact ⟨by decide, by decide⟩
  · exact ⟨by decide, by decide⟩

/-- Witness for C3's amended claim at the concrete empty payloads. -/
theorem C3_same_schema_amended_witness :
    ([("source", Json.str "usda"),
      ("name", Json.str "Food"),
      ("serving", Json.str "100 g"),
      ("protein", Json.num 0),
      ("carbs", Json.num 0),
      ("fats", Json.num 0),
      ("calories", Json.num 0),
      ("metadata", Json.obj [("fdc_id", Json.str ""),
                             ("source", Json.str "usda")]),
      ("fdc_id", Json.str "")] : List (String × Json)).map Prod.fst =
      ["source", "name", "serving", "protein", "carbs", "fats", "calories",
       "metadata", "fdc_id"] ∧
    ([("id", Json.str ""),
      ("source", Json.str "fatsecret"),
      ("name", Json.str "Food"),
      ("serving", Json.str "1 serving"),
      ("protein", Json.num 0),
      ("carbs", Json.num 0),
      ("fats", Json.num 0),
      ("calories", Json.num 0),
      ("serving_options", Json.arr []),
      ("metadata", Json.obj [("food_id", Json.str ""), ("brand", Json.null)]),
      ("food_id", Json.str "")] : List (String × Json)).map Prod.fst =
      ["id", "source", "name", "serving", "protein", "carbs", "fats",
       "calories", "serving_options", "metadata", "food_id"] := by
  have h := C3_same_schema_amended (Json.obj []) (Json.obj []) _ _ rfl rfl
  exact ⟨h.1, h.2.1⟩

/-- C8: the `weekly_checkins` row inserted by `submit_checkin` stores the
submitted photo items exactly when the resolved retention is not
`delete_after_scan`, and stores an empty photos list, with photo-asset
deletion attempted for the submitted photo urls, exactly when it is
`delete_after_scan`; any retention input whose trimmed lowercase form is
neither `store` nor `delete_after_scan` (including `None`) resolves to
`store`, so photos are kept by default. -/
theorem C8_checkin_photo_retention :
    ∀ (photo_retention : Option String) (photos photo_urls : Option Json)
      (date_value : String),
      (Checkins.resolveRetention photo_retention = "store" ∨
        Checkins.resolveRetention photo_retention = "delete_after_scan") ∧
      (pyLower (pyStrip (pyOrStr photo_retention "store")) ≠ "store" →
        pyLower (pyStrip (pyOrStr photo_retention "store")) ≠ "delete_after_scan" →
        Checkins.resolveRetention photo_retention = "store") ∧
      Checkins.resolveRetention none = "store" ∧
      (Checkins.resolveRetention photo_retention ≠ "delete_after_scan" →
        Checkins.checkin_row_photos photo_retention photos photo_urls date_value =
          Checkins.stored_photos photos photo_urls date_value ∧
        Checkins.deletion_attempted photo_retention photos photo_urls date_value =
          false) ∧
      (Checkins.resolveRetention photo_retention = "delete_after_scan" →
        Checkins.checkin_row_photos photo_retention photos photo_urls date_value =
          [] ∧
        (Checkins.deletion_attempted photo_retention photos photo_urls date_value =
            true ↔
          Checkins.prompt_urls photos photo_urls date_value ≠ [])) := by
  intro photo_retention photos photo_urls date_value
  refine ⟨?_, ?_, by decide, ?_, ?_⟩
  · rw [Checkins.resolveRetention_eq]
    split
    · next h =>
      simpa [Checkins.PHOTO_RETENTION_STORE,
        Checkins.PHOTO_RETENTION_DELETE_AFTER_SCAN] using h
    · exact Or.inl rfl
  · intro h1 h2
    rw [Checkins.resolveRetention_eq]
    rw [if_neg]
    · rfl
    · push_neg
      refine ⟨?_, ?_⟩
      · simpa [Checkins.PHOTO_RETENTION_STORE] using h1
      · simpa [Checkins.PHOTO_RETENTION_DELETE_AFTER_SCAN] using h2
  · intro h
    have hk : Checkins.keep_photos photo_retention = true := by
      simp [Checkins.keep_photos, Checkins.PHOTO_RETENTION_DELETE_AFTER_SCAN, h]
    constructor
    · unfold Checkins.checkin_row_photos
      rw [if_pos hk]
    · unfold Checkins.deletion_attempted
      rw [hk]
      rfl
  · intro h
    have hk : Checkins.keep_photos photo_retention = false := by
      simp [Checkins.keep_photos, Checkins.PHOTO_RETENTION_DELETE_AFTER_SCAN, h]
    constructor
    · unfold Checkins.checkin_row_photos
      rw [if_neg]
      rw [hk]
      exact Bool.false_ne_true
    · unfold Checkins.deletion_attempted
      rw [hk]
      simp [List.isEmpty_iff]

/-- Witness for C8: a mixed-case padded `delete_after_scan` input empties the
stored photos and attempts deletion of the one submitted photo; a garbage
input resolves to `store`. -/
theorem C8_checkin_photo_retention_witness :
    Checkins.checkin_row_photos (some " Delete_After_Scan ")
      (some (Json.arr [Json.str "http://x/p.jpg"])) none "2026-10-12" = [] ∧
    (Checkins.deletion_attempted (some " Delete_After_Scan ")
        (some (Json.arr [Json.str "http://x/p.jpg"])) none "2026-10-12" = true ↔
      Checkins.prompt_urls (some (Json.arr [Json.str "http://x/p.jpg"])) none
        "2026-10-12" ≠ []) ∧
    Checkins.resolveRetention (some "keep!!") = "store" := by
  refine ⟨?_, ?_, ?_⟩
  · exact ((C8_checkin_photo_retention (some " Delete_After_Scan ")
      (some (Json.arr [Json.str "http://x/p.jpg"])) none "2026-10-12").2.2.2.2
      (by decide)).1
  · exact ((C8_checkin_photo_retention (some " Delete_After_Scan ")
      (some (Json.arr [Json.str "http://x/p.jpg"])) none "2026-10-12").2.2.2.2
      (by decide)).2
  · exact (C8_checkin_photo_retention (some "keep!!") none none "").2.1
      (by decide) (by decide)

/-- C6: every server-sent-event stream produced by `post_message` is a finite
event list whose entries all have the form `data: <chunk>\n\n` and whose last
event is exactly `data: [DONE]\n\n`, on the refusal, workout-creation, action
confirmation (stored and inferred), and ordinary-reply streaming branches. -/
theorem C6_sse_streams_well_terminated :
    Chat.sseEvent "[DONE]" = "data: [DONE]\n\n" ∧
    (∀ refusal_text,
      (Chat.refusal_stream refusal_text).getLast? = some (Chat.sseEvent "[DONE]") ∧
      ∀ e ∈ Chat.refusal_stream refusal_text, ∃ c, e = Chat.sseEvent c) ∧
    (∀ success,
      (Chat.stream_workout_response success).getLast? =
        some (Chat.sseEvent "[DONE]") ∧
      ∀ e ∈ Chat.stream_workout_response success, ∃ c, e = Chat.sseEvent c) ∧
    (∀ t a,
      (Chat.stream_action_confirmation t a).getLast? =
        some (Chat.sseEvent "[DONE]") ∧
      ∀ e ∈ Chat.stream_action_confirmation t a, ∃ c, e = Chat.sseEvent c) ∧
    (∀ t a,
      (Chat.stream_inferred_action_confirmation t a).getLast? =
        some (Chat.sseEvent "[DONE]") ∧
      ∀ e ∈ Chat.stream_inferred_action_confirmation t a, ∃ c, e = Chat.sseEvent c) ∧
    (∀ t ae,
      (Chat.stream_response t ae).getLast? = some (Chat.sseEvent "[DONE]") ∧
      ∀ e ∈ Chat.stream_response t ae, ∃ c, e = Chat.sseEvent c) := by
  refine ⟨rfl, ?_, ?_, ?_, ?_, ?_⟩
  · intro rt
    refine ⟨rfl, ?_⟩
    intro e he
    simp only [Chat.refusal_stream, List.mem_cons, List.not_mem_nil,
      or_false] at he
    rcases he with rfl | rfl
    · exact ⟨rt, rfl⟩
    · exact ⟨"[DONE]", rfl⟩
  · intro success
    refine ⟨rfl, ?_⟩
    intro e he
    simp only [Chat.stream_workout_response, List.mem_cons, List.not_mem_nil,
      or_false] at he
    rcases he with rfl | rfl | rfl
    · exact ⟨_, rfl⟩
    · exact ⟨_, rfl⟩
    · exact ⟨"[DONE]", rfl⟩
  · intro t a
    refine ⟨rfl, ?_⟩
    intro e he
    simp only [Chat.stream_action_confirmation, List.mem_cons, List.not_mem_nil,
      or_false] at he
    rcases he with rfl | rfl | rfl
    · exact ⟨t, rfl⟩
    · exact ⟨a, rfl⟩
    · exact ⟨"[DONE]", rfl⟩
  · intro t a
    refine ⟨rfl, ?_⟩
    intro e he
    simp only [Chat.stream_inferred_action_confirmation, List.mem_cons,
      List.not_mem_nil, or_false] at he
    rcases he with rfl | rfl | rfl
    · exact ⟨t, rfl⟩
    · exact ⟨a, rfl⟩
    · exact ⟨"[DONE]", rfl⟩
  · intro t ae
    cases ae with
    | none =>
      refine ⟨rfl, ?_⟩
      intro e he
      simp only [Chat.stream_response, List.mem_cons, List.not_mem_nil,
        or_false, List.mem_append, List.nil_append, List.cons_append] at he
      rcases he with rfl | rfl
      · exact ⟨t, rfl⟩
      · exact ⟨"[DONE]", rfl⟩
    | some a =>
      refine ⟨rfl, ?_⟩
      intro e he
      simp only [Chat.stream_response, List.mem_cons, List.not_mem_nil,
        or_false, List.mem_append, List.nil_append, List.cons_append] at he
      rcases he with rfl | rfl | rfl
      · exact ⟨t, rfl⟩
      · exact ⟨a, rfl⟩
      · exact ⟨"[DONE]", rfl⟩

namespace Chat

/-- Starting inside a word never counts more words than starting outside. -/
theorem wordCount_true_le (l : List Char) :
    wordCount true l ≤ wordCount false l := by
  induction l with
  | nil => exact le_refl 0
  | cons c rest ih =>
    by_cases hc : isPySpace c
    · simp [wordCount, hc]
    · simp [wordCount, hc]

/-- Starting outside a word counts at most one more word. -/
theorem wordCount_false_le (l : List Char) :
    wordCount false l ≤ wordCount true l + 1 := by
  induction l with
  | nil => simp [wordCount]
  | cons c rest ih =>
    by_cases hc : isPySpace c
    · simp [wordCount, hc]
    · simp [wordCount, hc]
      omega

/-- Prepending a character never lowers the word count. -/
theorem wordCount_cons_le (b : Bool) (a : Char) (l : List Char) :
    wordCount b l ≤ wordCount b (a :: l) := by
  by_cases ha : isPySpace a
  · simp only [wordCount, ha, if_pos]
    cases b
    · exact le_refl _
    · exact wordCount_true_le l
  · simp only [wordCount, ha, if_neg, Bool.false_eq_true, not_false_iff]
    cases b
    · have := wordCount_false_le l
      simp only [Bool.false_eq_true, if_neg, ite_false]
      omega
    · simp

/-- Deleting characters never raises the word count. -/
theorem wordCount_sublist {l' l : List Char} (h : l'.Sublist l) :
    ∀ b, wordCount b l' ≤ wordCount b l := by
  induction h with
  | slnil => intro b; exact le_refl 0
  | cons a h ih =>
    intro b
    exact le_trans (ih b) (wordCount_cons_le b a _)
  | cons₂ a h ih =>
    intro b
    by_cases ha : isPySpace a
    · simp only [wordCount, ha, if_pos]
      exact ih false
    · simp only [wordCount, ha, if_neg, Bool.false_eq_true, not_false_iff]
      exact Nat.add_le_add_left (ih true) _

/-- Inside a word, the remaining count is the count of the word's tail. -/
theorem wordCount_true_eq_dropWhile (l : List Char) :
    wordCount true l =
      wordCount false (l.dropWhile (fun c => !isPySpace c)) := by
  induction l with
  | nil => rfl
  | cons c rest ih =>
    by_cases hc : isPySpace c
    · simp [wordCount, List.dropWhile, hc]
    · simp [wordCount, List.dropWhile, hc, ih]

/-- The inside-a-word counter agrees with the length of `split()`. -/
theorem wordCount_eq_split_length_aux :
    ∀ (n : Nat) (l : List Char), l.length ≤ n →
      wordCount false l = (pySplitChars l).length := by
  intro n
  induction n with
  | zero =>
    intro l hl
    have : l = [] := List.length_eq_zero.mp (Nat.le_zero.mp hl)
    subst this
    simp [wordCount, pySplitChars]
  | succ n ih =>
    intro l hl
    cases l with
    | nil => simp [wordCount, pySplitChars]
    | cons c rest =>
      simp only [List.length_cons, Nat.succ_le_succ_iff] at hl
      by_cases hc : isPySpace c
      · rw [show wordCount false (c :: rest) = wordCount false rest by
          simp [wordCount, hc]]
        rw [show pySplitChars (c :: rest) = pySplitChars rest by
          simp only [pySplitChars]
          rw [if_pos hc]]
        exact ih rest hl
      · rw [show wordCount false (c :: rest) = 1 + wordCount true rest by
          simp [wordCount, hc]]
        rw [show pySplitChars (c :: rest) =
            (c :: rest.takeWhile (fun d => !isPySpace d)) ::
              pySplitChars (rest.dropWhile (fun d => !isPySpace d)) by
          simp only [pySplitChars]
          rw [if_neg hc]]
        rw [wordCount_true_eq_dropWhile]
        rw [ih (rest.dropWhile (fun d => !isPySpace d))
          (le_trans ((List.dropWhile_sublist _).length_le) hl)]
        simp [Nat.add_comm]

/-- `wordCount false` is the length of Python `split()`. -/
theorem wordCount_eq_split_length (l : List Char) :
    wordCount false l = (pySplitChars l).length :=
  wordCount_eq_split_length_aux l.length l (le_refl _)

/-- Every `split()` part is nonempty and blank-free. -/
theorem pySplit_elem_aux :
    ∀ (n : Nat) (l : List Char), l.length ≤ n →
      ∀ w ∈ pySplitChars l, w ≠ [] ∧ ∀ c ∈ w, !isPySpace c := by
  intro n
  induction n with
  | zero =>
    intro l hl
    have : l = [] := List.length_eq_zero.mp (Nat.le_zero.mp hl)
    subst this
    intro w hw
    simp [pySplitChars] at hw
  | succ n ih =>
    intro l hl
    cases l with
    | nil => intro w hw; simp [pySplitChars] at hw
    | cons c rest =>
      simp only [List.length_cons, Nat.succ_le_succ_iff] at hl
      by_cases hc : isPySpace c
      · rw [show pySplitChars (c :: rest) = pySplitChars rest by
          rw [pySplitChars]; rw [if_pos hc]]
        exact ih rest hl
      · rw [show pySplitChars (c :: rest) =
            (c :: rest.takeWhile (fun d => !isPySpace d)) ::
              pySplitChars (rest.dropWhile (fun d => !isPySpace d)) by
          rw [pySplitChars]; rw [if_neg hc]]
        intro w hw
        rcases List.mem_cons.mp hw with rfl | hw2
        · refine ⟨by simp, ?_⟩
          intro d hd
          rcases List.mem_cons.mp hd with rfl | hd2
          · simpa using hc
          · simpa using List.mem_takeWhile_imp hd2
        · exact ih (rest.dropWhile (fun d => !isPySpace d))
            (le_trans ((List.dropWhile_sublist _).length_le) hl) w hw2

/-- Every `split()` part is nonempty and blank-free. -/
theorem pySplit_elem {l w : List Char} (hw : w ∈ pySplitChars l) :
    w ≠ [] ∧ ∀ c ∈ w, !isPySpace c :=
  pySplit_elem_aux l.length l (le_refl _) w hw

/-- `takeWhile` keeps a list all of whose elements satisfy the predicate. -/
theorem takeWhile_all (p : Char → Bool) (l : List Char) (h : ∀ c ∈ l, p c) :
    l.takeWhile p = l := by
  induction l with
  | nil => rfl
  | cons c rest ih =>
    rw [List.takeWhile_cons, if_pos (h c (List.mem_cons_self c rest))]
    rw [ih (fun d hd => h d (List.mem_cons_of_mem c hd))]

/-- `dropWhile` drops a list all of whose elements satisfy the predicate. -/
theorem dropWhile_all (p : Char → Bool) (l : List Char) (h : ∀ c ∈ l, p c) :
    l.dropWhile p = [] := by
  induction l with
  | nil => rfl
  | cons c rest ih =>
    rw [List.dropWhile_cons, if_pos (h c (List.mem_cons_self c rest))]
    exact ih (fun d hd => h d (List.mem_cons_of_mem c hd))

/-- `takeWhile` over a satisfied block stops at the first failing element. -/
theorem takeWhile_append_stop (p : Char → Bool) (xs : List Char) (y : Char)
    (l : List Char) (hxs : ∀ c ∈ xs, p c) (hy : p y = false) :
    (xs ++ y :: l).takeWhile p = xs := by
  induction xs with
  | nil => simp [List.takeWhile_cons, hy]
  | cons c rest ih =>
    rw [List.cons_append, List.takeWhile_cons,
      if_pos (hxs c (List.mem_cons_self c rest))]
    rw [ih (fun d hd => hxs d (List.mem_cons_of_mem c hd))]

/-- `dropWhile` over a satisfied block stops at the first failing element. -/
theorem dropWhile_append_stop (p : Char → Bool) (xs : List Char) (y : Char)
    (l : List Char) (hxs : ∀ c ∈ xs, p c) (hy : p y = false) :
    (xs ++ y :: l).dropWhile p = y :: l := by
  induction xs with
  | nil => simp [List.dropWhile_cons, hy]
  | cons c rest ih =>
    rw [List.cons_append, List.dropWhile_cons,
      if_pos (hxs c (List.mem_cons_self c rest))]
    exact ih (fun d hd => hxs d (List.mem_cons_of_mem c hd))

/-- `split()` of a single nonempty blank-free word is that word. -/
theorem pySplit_single (w : List Char) (hne : w ≠ [])
    (hw : ∀ c ∈ w, !isPySpace c) : pySplitChars w = [w] := by
  cases w with
  | nil => exact absurd rfl hne
  | cons c rest =>
    have hc : isPySpace c = false := by
      simpa using hw c (List.mem_cons_self c rest)
    simp only [pySplitChars]
    rw [if_neg (by simp [hc])]
    rw [takeWhile_all _ rest (fun d hd => hw d (List.mem_cons_of_mem c hd))]
    rw [dropWhile_all _ rest (fun d hd => hw d (List.mem_cons_of_mem c hd))]
    simp [pySplitChars]

/-- `split()` undoes `" ".join` on nonempty blank-free words. -/
theorem pySplit_joinWords (ws : List (List Char))
    (h : ∀ w ∈ ws, w ≠ [] ∧ ∀ c ∈ w, !isPySpace c) :
    pySplitChars (joinWords ws) = ws := by
  induction ws with
  | nil => simp [joinWords, pySplitChars]
  | cons w rest ih =>
    cases rest with
    | nil =>
      rw [show joinWords [w] = w from rfl]
      exact pySplit_single w (h w (List.mem_cons_self w [])).1
        (h w (List.mem_cons_self w [])).2
    | cons w2 t =>
      rw [show joinWords (w :: w2 :: t) = w ++ ' ' :: joinWords (w2 :: t)
        from rfl]
      obtain ⟨hne, hw⟩ := h w (List.mem_cons_self w _)
      cases w with
      | nil => exact absurd rfl hne
      | cons c wr =>
        have hc : isPySpace c = false := by
          simpa using hw c (List.mem_cons_self c wr)
        have hwr : ∀ d ∈ wr, (fun d => !isPySpace d) d = true :=
          fun d hd => hw d (List.mem_cons_of_mem c hd)
        rw [List.cons_append]
        simp only [pySplitChars]
        rw [if_neg (by simp [hc])]
        rw [takeWhile_append_stop _ wr ' ' _ hwr (by simp [isPySpace])]
        rw [dropWhile_append_stop _ wr ' ' _ hwr (by simp [isPySpace])]
        rw [show pySplitChars (' ' :: joinWords (w2 :: t)) =
            pySplitChars (joinWords (w2 :: t)) by
          simp only [pySplitChars]
          rw [if_pos (by simp [isPySpace])]]
        rw [ih (fun v hv => h v (List.mem_cons_of_mem _ hv))]

/-- Stripping is a deletion. -/
theorem pyStripChars_sublist (cs : List Char) : (pyStripChars cs).Sublist cs := by
  unfold pyStripChars
  have h1 : ((cs.dropWhile isPySpace).reverse.dropWhile isPySpace).Sublist
      (cs.dropWhile isPySpace).reverse := List.dropWhile_sublist _
  have h2 := h1.reverse
  simp only [List.reverse_reverse] at h2
  exact h2.trans (List.dropWhile_sublist _)

/-- `rstrip` is a deletion. -/
theorem pyRStrip_sublist (cs chars : List Char) :
    (pyRStrip cs chars).Sublist cs := by
  unfold pyRStrip
  have h1 : ((cs.reverse.dropWhile (fun c => chars.contains c))).Sublist
      cs.reverse := List.dropWhile_sublist _
  have h2 := h1.reverse
  simpa using h2

/-- Removing a trailing enumerator is a deletion. -/
theorem removeTrailingEnum_sublist (cs : List Char) :
    (removeTrailingEnum cs).Sublist cs := by
  unfold removeTrailingEnum
  split
  · cases hr : cs.reverse with
    | nil => exact List.Sublist.refl cs
    | cons d rest =>
      have h1 : (rest.dropWhile Char.isDigit).Sublist rest :=
        List.dropWhile_sublist _
      have h2 : (rest.dropWhile Char.isDigit).Sublist (d :: rest) :=
        h1.cons d
      have h3 := h2.reverse
      rw [← hr] at h3
      simpa using h3
  · exact List.Sublist.refl cs

/-- A take of a take is a deletion of the longer take. -/
theorem take_sublist_take (i j : Nat) (l : List Char) (h : i ≤ j) :
    (l.take i).Sublist (l.take j) := by
  have : l.take i = (l.take j).take i := by
    rw [List.take_take, Nat.min_eq_left h]
  rw [this]
  exact List.take_sublist i (l.take j)

/-- `takeWhile` is an initial segment. -/
theorem takeWhile_eq_take (p : Char → Bool) (l : List Char) :
    l.takeWhile p = l.take (l.takeWhile p).length := by
  induction l with
  | nil => rfl
  | cons c rest ih =>
    rw [List.takeWhile_cons]
    by_cases hc : p c
    · rw [if_pos hc]
      simp only [List.length_cons, List.take_succ_cons]
      rw [← ih]
    · rw [if_neg hc]
      rfl

/-- A substitution scanner whose replacements delete from their matches is a
deletion. -/
theorem applySub_sublist_aux (tm : List Char → Option (List Char × Nat))
    (H : ∀ l rep k, tm l = some (rep, k) → rep.Sublist (l.take (k + 1))) :
    ∀ (n : Nat) (l : List Char), l.length ≤ n → (applySub tm l).Sublist l := by
  intro n
  induction n with
  | zero =>
    intro l hl
    have : l = [] := List.length_eq_zero.mp (Nat.le_zero.mp hl)
    subst this
    simp [applySub]
  | succ n ih =>
    intro l hl
    cases l with
    | nil => simp [applySub]
    | cons c rest =>
      simp only [List.length_cons, Nat.succ_le_succ_iff] at hl
      cases htm : tm (c :: rest) with
      | none =>
        rw [show applySub tm (c :: rest) = c :: applySub tm rest by
          simp only [applySub]
          rw [htm]]
        exact (ih rest hl).cons₂ c
      | some rk =>
        obtain ⟨rep, k⟩ := rk
        rw [show applySub tm (c :: rest) = rep ++ applySub tm (rest.drop k) by
          simp only [applySub]
          rw [htm]]
        have h1 : rep.Sublist ((c :: rest).take (k + 1)) := H _ _ _ htm
        have h2 : (applySub tm (rest.drop k)).Sublist (rest.drop k) :=
          ih (rest.drop k) (le_trans (by simp) hl)
        have h3 := h1.append h2
        rw [List.take_succ_cons, List.cons_append, List.take_append_drop] at h3
        exact h3

/-- The line-start-aware scanner version of `applySub_sublist_aux`. -/
theorem applySubLS_sublist_aux
    (tm : Bool → List Char → Option (List Char × Nat))
    (H : ∀ b l rep k, tm b l = some (rep, k) → rep.Sublist (l.take (k + 1))) :
    ∀ (n : Nat) (b : Bool) (l : List Char), l.length ≤ n →
      (applySubLS tm b l).Sublist l := by
  intro n
  induction n with
  | zero =>
    intro b l hl
    have : l = [] := List.length_eq_zero.mp (Nat.le_zero.mp hl)
    subst this
    simp [applySubLS]
  | succ n ih =>
    intro b l hl
    cases l with
    | nil => simp [applySubLS]
    | cons c rest =>
      simp only [List.length_cons, Nat.succ_le_succ_iff] at hl
      cases htm : tm b (c :: rest) with
      | none =>
        rw [show applySubLS tm b (c :: rest) =
            c :: applySubLS tm (c == nlChar) rest by
          simp only [applySubLS]
          rw [htm]]
        exact (ih _ rest hl).cons₂ c
      | some rk =>
        obtain ⟨rep, k⟩ := rk
        rw [show applySubLS tm b (c :: rest) = rep ++ applySubLS tm
            (((c :: rest).take (k + 1)).getLast? == some nlChar)
            (rest.drop k) by
          simp only [applySubLS]
          rw [htm]]
        have h1 : rep.Sublist ((c :: rest).take (k + 1)) := H _ _ _ _ htm
        have h2 := ih (((c :: rest).take (k + 1)).getLast? == some nlChar)
          (rest.drop k) (le_trans (by simp) hl)
        have h3 := h1.append h2
        rw [List.take_succ_cons, List.cons_append, List.take_append_drop] at h3
        exact h3

/-- A `takeWhile` run deletes from a longer initial segment. -/
theorem takeWhile_sublist_take (p : Char → Bool) (l : List Char) (j : Nat)
    (h : (l.takeWhile p).length ≤ j) : (l.takeWhile p).Sublist (l.take j) := by
  rw [takeWhile_eq_take p l]
  exact take_sublist_take _ j l h

/-- `tmCRLF` deletes the carriage return. -/
theorem tmCRLF_deletes : ∀ l rep k, tmCRLF l = some (rep, k) →
    rep.Sublist (l.take (k + 1)) := by
  intro l rep k h
  rcases l with _ | ⟨c1, _ | ⟨c2, rest⟩⟩
  · simp [tmCRLF] at h
  · simp [tmCRLF] at h
  · simp only [tmCRLF] at h
    split at h
    · next hc =>
      simp only [Option.some.injEq, Prod.mk.injEq] at h
      obtain ⟨h1, h2⟩ := h
      subst h1
      subst h2
      rw [show (c1 :: c2 :: rest).take 2 = [c1, c2] from rfl]
      rw [hc.2]
      exact (List.Sublist.refl [nlChar]).cons c1
    · exact absurd h (by simp)

/-- `tmFence` deletes the two fences. -/
theorem tmFence_deletes : ∀ l rep k, tmFence l = some (rep, k) →
    rep.Sublist (l.take (k + 1)) := by
  intro l rep k h
  rcases l with _ | ⟨c1, _ | ⟨c2, _ | ⟨c3, rest⟩⟩⟩
  · simp [tmFence] at h
  · simp [tmFence] at h
  · simp [tmFence] at h
  · simp only [tmFence] at h
    split at h
    · cases hf : findTripleTick rest with
      | none => rw [hf] at h; exact absurd h (by simp)
      | some i =>
        rw [hf] at h
        simp only [Option.some.injEq, Prod.mk.injEq] at h
        obtain ⟨h1, h2⟩ := h
        subst h1
        subst h2
        rw [show (c1 :: c2 :: c3 :: rest).take (i + 5 + 1) =
            c1 :: c2 :: c3 :: rest.take (i + 3) from rfl]
        have hsub : (rest.take i).Sublist (rest.take (i + 3)) :=
          take_sublist_take i (i + 3) rest (by omega)
        exact ((hsub.cons c3).cons c2).cons c1
    · exact absurd h (by simp)

/-- `tmBold` keeps only the inner text. -/
theorem tmBold_deletes : ∀ l rep k, tmBold l = some (rep, k) →
    rep.Sublist (l.take (k + 1)) := by
  intro l rep k h
  rcases l with _ | ⟨c1, _ | ⟨c2, rest⟩⟩
  · simp [tmBold] at h
  · simp [tmBold] at h
  · simp only [tmBold] at h
    split at h
    · split at h
      · split at h
        · simp only [Option.some.injEq, Prod.mk.injEq] at h
          obtain ⟨h1, h2⟩ := h
          subst h1
          subst h2
          rw [show ((c1 :: c2 :: rest).take
              ((rest.takeWhile (fun c => !(c == starChar))).length + 3 + 1)) =
            c1 :: c2 :: rest.take
              ((rest.takeWhile (fun c => !(c == starChar))).length + 2)
            from rfl]
          have hs := takeWhile_sublist_take (fun c => !(c == starChar)) rest
            ((rest.takeWhile (fun c => !(c == starChar))).length + 2)
            (by omega)
          exact (hs.cons c2).cons c1
        · exact absurd h (by simp)
      · exact absurd h (by simp)
    · exact absurd h (by simp)

/-- `tmUnder` keeps only the inner text. -/
theorem tmUnder_deletes : ∀ l rep k, tmUnder l = some (rep, k) →
    rep.Sublist (l.take (k + 1)) := by
  intro l rep k h
  rcases l with _ | ⟨c1, _ | ⟨c2, rest⟩⟩
  · simp [tmUnder] at h
  · simp [tmUnder] at h
  · simp only [tmUnder] at h
    split at h
    · split at h
      · split at h
        · simp only [Option.some.injEq, Prod.mk.injEq] at h
          obtain ⟨h1, h2⟩ := h
          subst h1
          subst h2
          rw [show ((c1 :: c2 :: rest).take
              ((rest.takeWhile (fun c => !(c == usChar))).length + 3 + 1)) =
            c1 :: c2 :: rest.take
              ((rest.takeWhile (fun c => !(c == usChar))).length + 2)
            from rfl]
          have hs := takeWhile_sublist_take (fun c => !(c == usChar)) rest
            ((rest.takeWhile (fun c => !(c == usChar))).length + 2)
            (by omega)
          exact (hs.cons c2).cons c1
        · exact absurd h (by simp)
      · exact absurd h (by simp)
    · exact absurd h (by simp)

/-- `tmCode` keeps only the inner text. -/
theorem tmCode_deletes : ∀ l rep k, tmCode l = some (rep, k) →
    rep.Sublist (l.take (k + 1)) := by
  intro l rep k h
  rcases l with _ | ⟨c1, rest⟩
  · simp [tmCode] at h
  · simp only [tmCode] at h
    split at h
    · split at h
      · split at h
        · simp only [Option.some.injEq, Prod.mk.injEq] at h
          obtain ⟨h1, h2⟩ := h
          subst h1
          subst h2
          rw [show ((c1 :: rest).take
              ((rest.takeWhile (fun c => !(c == tickChar))).length + 1 + 1)) =
            c1 :: rest.take
              ((rest.takeWhile (fun c => !(c == tickChar))).length + 1)
            from rfl]
          have hs := takeWhile_sublist_take (fun c => !(c == tickChar)) rest
            ((rest.takeWhile (fun c => !(c == tickChar))).length + 1)
            (by omega)
          exact hs.cons c1
        · exact absurd h (by simp)
      · exact absurd h (by simp)
    · exact absurd h (by simp)

/-- Empty replacements delete trivially. -/
theorem rep_nil_deletes (tm : List Char → Option (List Char × Nat))
    (H : ∀ l rep k, tm l = some (rep, k) → rep = []) :
    ∀ l rep k, tm l = some (rep, k) → rep.Sublist (l.take (k + 1)) := by
  intro l rep k h
  rw [H l rep k h]
  exact List.nil_sublist _

/-- `tmStarStar` replaces with nothing. -/
theorem tmStarStar_rep_nil : ∀ l rep k, tmStarStar l = some (rep, k) →
    rep = [] := by
  intro l rep k h
  rcases l with _ | ⟨c1, _ | ⟨c2, rest⟩⟩
  · simp [tmStarStar] at h
  · simp [tmStarStar] at h
  · simp only [tmStarStar] at h
    split at h
    · simp only [Option.some.injEq, Prod.mk.injEq] at h
      exact h.1.symm
    · exact absurd h (by simp)

/-- `tmUnderUnder` replaces with nothing. -/
theorem tmUnderUnder_rep_nil : ∀ l rep k, tmUnderUnder l = some (rep, k) →
    rep = [] := by
  intro l rep k h
  rcases l with _ | ⟨c1, _ | ⟨c2, rest⟩⟩
  · simp [tmUnderUnder] at h
  · simp [tmUnderUnder] at h
  · simp only [tmUnderUnder] at h
    split at h
    · simp only [Option.some.injEq, Prod.mk.injEq] at h
      exact h.1.symm
    · exact absurd h (by simp)

/-- `tmTick` replaces with nothing. -/
theorem tmTick_rep_nil : ∀ l rep k, tmTick l = some (rep, k) → rep = [] := by
  intro l rep k h
  rcases l with _ | ⟨c1, rest⟩
  · simp [tmTick] at h
  · simp only [tmTick] at h
    split at h
    · simp only [Option.some.injEq, Prod.mk.injEq] at h
      exact h.1.symm
    · exact absurd h (by simp)

/-- The three line-anchored matchers replace with nothing. -/
theorem tmLS_rep_nil (tm : Bool → List Char → Option (List Char × Nat))
    (H : ∀ b l rep k, tm b l = some (rep, k) → rep = []) :
    ∀ b l rep k, tm b l = some (rep, k) → rep.Sublist (l.take (k + 1)) := by
  intro b l rep k h
  rw [H b l rep k h]
  exact List.nil_sublist _

/-- `tmHeading` replaces with nothing. -/
theorem tmHeading_rep_nil : ∀ b l rep k, tmHeading b l = some (rep, k) →
    rep = [] := by
  intro b l rep k h
  simp only [tmHeading] at h
  split at h
  · exact absurd h (by simp)
  · split at h
    · split at h
      · split at h
        · simp only [Option.some.injEq, Prod.mk.injEq] at h
          exact h.1.symm
        · exact absurd h (by simp)
      · exact absurd h (by simp)
    · exact absurd h (by simp)

/-- `tmBullet` replaces with nothing. -/
theorem tmBullet_rep_nil : ∀ b l rep k, tmBullet b l = some (rep, k) →
    rep = [] := by
  intro b l rep k h
  simp only [tmBullet] at h
  split at h
  · exact absurd h (by simp)
  · split at h
    · split at h
      · split at h
        · simp only [Option.some.injEq, Prod.mk.injEq] at h
          exact h.1.symm
        · exact absurd h (by simp)
      · exact absurd h (by simp)
    · exact absurd h (by simp)

/-- `tmEnum` replaces with nothing. -/
theorem tmEnum_rep_nil : ∀ b l rep k, tmEnum b l = some (rep, k) →
    rep = [] := by
  intro b l rep k h
  simp only [tmEnum] at h
  split at h
  · exact absurd h (by simp)
  · split at h
    · split at h
      · split at h
        · split at h
          · simp only [Option.some.injEq, Prod.mk.injEq] at h
            exact h.1.symm
          · exact absurd h (by simp)
        · exact absurd h (by simp)
      · exact absurd h (by simp)
    · exact absurd h (by simp)

/-- Wrapper: a deleting scanner is a deletion. -/
theorem applySub_sublist (tm : List Char → Option (List Char × Nat))
    (H : ∀ l rep k, tm l = some (rep, k) → rep.Sublist (l.take (k + 1)))
    (l : List Char) : (applySub tm l).Sublist l :=
  applySub_sublist_aux tm H l.length l (le_refl _)

/-- Wrapper: a deleting line-start scanner is a deletion. -/
theorem applySubLS_sublist (tm : Bool → List Char → Option (List Char × Nat))
    (H : ∀ b l rep k, tm b l = some (rep, k) → rep.Sublist (l.take (k + 1)))
    (b : Bool) (l : List Char) : (applySubLS tm b l).Sublist l :=
  applySubLS_sublist_aux tm H l.length b l (le_refl _)

/-- Each pass of `_sanitize_coach_text` before the whitespace normalization
is a deletion. -/
theorem sanitize_passes_sublist (l : List Char) :
    (applySubLS tmEnum true (applySubLS tmBullet true (applySubLS tmHeading
      true (applySub tmTick (applySub tmUnderUnder (applySub tmStarStar
      (applySub tmCode (applySub tmUnder (applySub tmBold (applySub tmFence
      (applySub tmCRLF l))))))))))).Sublist l :=
  (applySubLS_sublist tmEnum (tmLS_rep_nil _ tmEnum_rep_nil) true _).trans
    ((applySubLS_sublist tmBullet (tmLS_rep_nil _ tmBullet_rep_nil) true _).trans
    ((applySubLS_sublist tmHeading (tmLS_rep_nil _ tmHeading_rep_nil) true _).trans
    ((applySub_sublist tmTick (rep_nil_deletes _ tmTick_rep_nil) _).trans
    ((applySub_sublist tmUnderUnder (rep_nil_deletes _ tmUnderUnder_rep_nil) _).trans
    ((applySub_sublist tmStarStar (rep_nil_deletes _ tmStarStar_rep_nil) _).trans
    ((applySub_sublist tmCode tmCode_deletes _).trans
    ((applySub_sublist tmUnder tmUnder_deletes _).trans
    ((applySub_sublist tmBold tmBold_deletes _).trans
    ((applySub_sublist tmFence tmFence_deletes _).trans
    (applySub_sublist tmCRLF tmCRLF_deletes l))))))))))

/-- Sanitization never raises the word count. -/
theorem sanitize_wordCount_le (l : List Char) :
    wordCount false (_sanitize_coach_text l) ≤ wordCount false l := by
  unfold _sanitize_coach_text
  set m := applySubLS tmEnum true (applySubLS tmBullet true (applySubLS
    tmHeading true (applySub tmTick (applySub tmUnderUnder (applySub
    tmStarStar (applySub tmCode (applySub tmUnder (applySub tmBold (applySub
    tmFence (applySub tmCRLF l)))))))))) with hm
  have h1 : wordCount false (pyStripChars (joinWords (pySplitChars m))) ≤
      wordCount false (joinWords (pySplitChars m)) :=
    wordCount_sublist (pyStripChars_sublist _) false
  have h2 : wordCount false (joinWords (pySplitChars m)) = wordCount false m := by
    rw [wordCount_eq_split_length (joinWords (pySplitChars m))]
    rw [pySplit_joinWords _ (fun w hw => pySplit_elem hw)]
    rw [wordCount_eq_split_length m]
  have h3 : wordCount false m ≤ wordCount false l :=
    wordCount_sublist (sanitize_passes_sublist l) false
  exact le_trans h1 (le_trans (le_of_eq h2) h3)

/-- Zeta-reduced equation for `_trim_coach_reply`. -/
theorem trim_coach_reply_eq (text : List Char) (mw ms : Nat) :
    _trim_coach_reply text mw ms =
      if (_sanitize_coach_text text).isEmpty then _sanitize_coach_text text
      else
        pyStripChars (removeTrailingEnum (_sanitize_coach_text
          (if (pySplitChars (joinWords ((mergeParts (splitSentences
                (_sanitize_coach_text text))).take ms))).length > mw then
            pyRStrip (joinWords ((pySplitChars (joinWords ((mergeParts
              (splitSentences (_sanitize_coach_text text))).take
                ms))).take mw)) ['.', ',', '!', '?']
          else joinWords ((mergeParts (splitSentences
            (_sanitize_coach_text text))).take ms)))) := rfl

end Chat

/-- C10: for every input text and every `max_words` and `max_sentences`,
`_trim_coach_reply` returns a string with at most `max_words`
whitespace-separated words, and the sanitization applied after the word cap
can only remove words, never add them, so every persisted or streamed coach
reply respects the configured word limit. -/
theorem C10_trim_coach_reply_word_cap :
    ∀ (text : List Char) (max_words max_sentences : Nat),
      (Chat.pySplitChars (Chat._trim_coach_reply text max_words
        max_sentences)).length ≤ max_words ∧
      ∀ l : List Char,
        (Chat.pySplitChars (Chat._sanitize_coach_text l)).length ≤
          (Chat.pySplitChars l).length := by
  intro text mw ms
  constructor
  · rw [← Chat.wordCount_eq_split_length]
    rw [Chat.trim_coach_reply_eq]
    by_cases h0 : (Chat._sanitize_coach_text text).isEmpty
    · rw [if_pos h0]
      rw [List.isEmpty_iff.mp h0]
      simp [Chat.wordCount]
    · rw [if_neg h0]
      set J := Chat.joinWords ((Chat.mergeParts (Chat.splitSentences
        (Chat._sanitize_coach_text text))).take ms) with hJ
      have key : ∀ t : List Char, Chat.wordCount false t ≤ mw →
          Chat.wordCount false (pyStripChars (Chat.removeTrailingEnum
            (Chat._sanitize_coach_text t))) ≤ mw := by
        intro t ht
        have a1 := Chat.wordCount_sublist (Chat.pyStripChars_sublist
          (Chat.removeTrailingEnum (Chat._sanitize_coach_text t))) false
        have a2 := Chat.wordCount_sublist (Chat.removeTrailingEnum_sublist
          (Chat._sanitize_coach_text t)) false
        have a3 := Chat.sanitize_wordCount_le t
        omega
      by_cases hcap : (Chat.pySplitChars J).length > mw
      · rw [if_pos hcap]
        apply key
        have b1 := Chat.wordCount_sublist (Chat.pyRStrip_sublist
          (Chat.joinWords ((Chat.pySplitChars J).take mw))
          ['.', ',', '!', '?']) false
        have b2 : Chat.wordCount false
            (Chat.joinWords ((Chat.pySplitChars J).take mw)) =
            ((Chat.pySplitChars J).take mw).length := by
          rw [Chat.wordCount_eq_split_length]
          rw [Chat.pySplit_joinWords _ (fun w hw =>
            Chat.pySplit_elem ((List.take_sublist mw _).subset hw))]
        have b3 : ((Chat.pySplitChars J).take mw).length ≤ mw := by
          simp [List.length_take]
        omega
      · rw [if_neg hcap]
        apply key
        rw [Chat.wordCount_eq_split_length]
        omega
  · intro l
    have h := Chat.sanitize_wordCount_le l
    rw [Chat.wordCount_eq_split_length, Chat.wordCount_eq_split_length] at h
    exact h

/-- Witness for C6 at concrete stream arguments. -/
theorem C6_sse_streams_well_terminated_witness :
    (Chat.refusal_stream "no").getLast? = some (Chat.sseEvent "[DONE]") ∧
    (∃ c, Chat.sseEvent "no" = Chat.sseEvent c) ∧
    (Chat.stream_response "hi" none).getLast? = some (Chat.sseEvent "[DONE]") := by
  refine ⟨(C6_sse_streams_well_terminated.2.1 "no").1, ?_,
    (C6_sse_streams_well_terminated.2.2.2.2.2 "hi" none).1⟩
  exact (C6_sse_streams_well_terminated.2.1 "no").2 (Chat.sseEvent "no")
    (List.mem_cons_self _ _)
